import Mathlib

/-!
Verification of the CodeCompass dependency-graph core: language registry,
language detector, import parsers (ECMAScript family and Python), and the
graph builder from `app/api/dependencies/route.ts`.

JavaScript strings are modelled as `List Char` (`JStr`); JavaScript string
operations (`split`, `join`, `includes`, `startsWith`, `endsWith`,
`toLowerCase` on ASCII, `Array.slice` with a possibly negative end index)
are embedded as executable functions on `JStr`.  Confidence scores are
modelled as rationals (the source uses literals 0.8, 0.3, 1.0 and exact
divisions of byte/file counts).
-/

/-- JavaScript string, modelled as its character list. -/
abbrev JStr := List Char

/-- Conversion from a Lean string literal to the model type. -/
def jstr (s : String) : JStr := s.data

/-- `pre` is a leading segment of the second argument
(JS `s.startsWith(pre)`). -/
def leadsWith : JStr → JStr → Bool
  | [], _ => true
  | _ :: _, [] => false
  | p :: ps, c :: cs => p == c && leadsWith ps cs

/-- JS `s.endsWith(suf)`. -/
def trailsWith (suf s : JStr) : Bool := leadsWith suf.reverse s.reverse

/-- JS `s.includes(pat)`: `pat` occurs contiguously inside `s`. -/
def hasSub (pat : JStr) : JStr → Bool
  | [] => leadsWith pat []
  | c :: cs => leadsWith pat (c :: cs) || hasSub pat cs

/-- JS `s.split(sep)` for a one-character separator: splits into the
(possibly empty) chunks between occurrences of `sep`. -/
def splitChar (sep : Char) : JStr → List JStr
  | [] => [[]]
  | c :: cs =>
    match splitChar sep cs with
    | [] => [[c]]
    | p :: ps => if c = sep then [] :: p :: ps else (c :: p) :: ps

/-- JS `parts.join(sep)` for a one-character separator. -/
def joinChar (sep : Char) : List JStr → JStr
  | [] => []
  | [p] => p
  | p :: ps => p ++ sep :: joinChar sep ps

/-- JS `s.toLowerCase()` restricted to ASCII (all registry names are
ASCII). -/
def jsToLower (s : JStr) : JStr := s.map Char.toLower

/-- JS `arr.slice(0, e)` where `e` may be negative (counts from the end,
clamped at 0). -/
def jsSliceTo (l : List α) (e : Int) : List α :=
  if 0 ≤ e then l.take e.toNat else l.take ((l.length : Int) + e).toNat

/-- First candidate contained in `files`, `none` otherwise (the
`for … if files.includes(v) return v` loops of the matchers). -/
def firstIn : List JStr → List JStr → Option JStr
  | [], _ => none
  | c :: cs, files => if c ∈ files then some c else firstIn cs files

theorem splitChar_ne_nil (sep : Char) (s : JStr) : splitChar sep s ≠ [] := by
  cases s with
  | nil => simp [splitChar]
  | cons c cs =>
    simp only [splitChar]
    cases h : splitChar sep cs with
    | nil => simp
    | cons p ps => by_cases hc : c = sep <;> simp [hc]

theorem splitChar_of_not_mem {sep : Char} {s : JStr} (h : sep ∉ s) :
    splitChar sep s = [s] := by
  induction s with
  | nil => rfl
  | cons c cs ih =>
    simp only [List.mem_cons, not_or] at h
    simp [splitChar, ih h.2, Ne.symm h.1]

theorem splitChar_append {sep : Char} {s t : JStr} (h : sep ∉ s) :
    splitChar sep (s ++ sep :: t) = s :: splitChar sep t := by
  induction s with
  | nil =>
    simp only [List.nil_append, splitChar]
    cases ht : splitChar sep t with
    | nil => exact absurd ht (splitChar_ne_nil sep t)
    | cons p ps => simp
  | cons c cs ih =>
    simp only [List.mem_cons, not_or] at h
    simp only [List.cons_append, splitChar]
    rw [List.append_eq, ih h.2]
    simp [Ne.symm h.1]

theorem leadsWith_iff (p s : JStr) : leadsWith p s = true ↔ ∃ t, s = p ++ t := by
  induction p generalizing s with
  | nil => simp [leadsWith]
  | cons a as ih =>
    cases s with
    | nil => simp [leadsWith]
    | cons c cs =>
      simp only [leadsWith, Bool.and_eq_true, beq_iff_eq, ih]
      constructor
      · rintro ⟨rfl, t, rfl⟩; exact ⟨t, rfl⟩
      · rintro ⟨t, ht⟩
        simp only [List.cons_append, List.cons.injEq] at ht
        exact ⟨ht.1.symm, t, ht.2⟩

theorem leadsWith_append (p t : JStr) : leadsWith p (p ++ t) = true :=
  (leadsWith_iff p (p ++ t)).2 ⟨t, rfl⟩

theorem leadsWith_length {p s : JStr} (h : leadsWith p s = true) :
    p.length ≤ s.length := by
  obtain ⟨t, rfl⟩ := (leadsWith_iff p s).1 h
  simp

theorem firstIn_mem {cands files : List JStr} {r : JStr}
    (h : firstIn cands files = some r) : r ∈ files := by
  induction cands with
  | nil => simp [firstIn] at h
  | cons c cs ih =>
    simp only [firstIn] at h
    split at h
    · cases h; assumption
    · exact ih h

theorem firstIn_perm {cands files files' : List JStr}
    (h : files.Perm files') : firstIn cands files = firstIn cands files' := by
  induction cands with
  | nil => rfl
  | cons c cs ih => simp [firstIn, h.mem_iff, ih]

/-! ## Language registry (`lib/parsers/language-configs.ts`) -/

/-- `LanguageConfig` from `lib/parsers/types.ts`.  `fileTypes` keeps the
insertion order of the TS object literal (`Object.entries` order). -/
structure LanguageConfig where
  id : JStr
  displayName : JStr
  aliases : List JStr
  extensions : List JStr
  excludePatterns : List JStr
  manifestFiles : List JStr
  fileTypes : List (JStr × List JStr)
deriving DecidableEq

def javascriptConfig : LanguageConfig where
  id := jstr "javascript"
  displayName := jstr "JavaScript/TypeScript"
  aliases := [jstr "typescript", jstr "tsx", jstr "jsx", jstr "js", jstr "ts"]
  extensions := [jstr ".js", jstr ".jsx", jstr ".ts", jstr ".tsx", jstr ".mjs", jstr ".cjs"]
  excludePatterns := [jstr "node_modules", jstr ".d.ts", jstr ".test.", jstr ".spec.",
    jstr "dist/", jstr "build/", jstr ".next/"]
  manifestFiles := [jstr "package.json", jstr "tsconfig.json", jstr "yarn.lock",
    jstr "package-lock.json", jstr "pnpm-lock.yaml"]
  fileTypes := [
    (jstr "component", [jstr "/components/", jstr ".tsx", jstr ".jsx"]),
    (jstr "api", [jstr "/api/", jstr "route.ts", jstr "route.js"]),
    (jstr "util", [jstr "/utils/", jstr "/lib/", jstr "/helpers/"]),
    (jstr "page", [jstr "/app/", jstr "/pages/", jstr "page."]),
    (jstr "config", [jstr "config", jstr ".config."]),
    (jstr "style", [jstr ".css", jstr ".scss", jstr ".sass"]),
    (jstr "hook", [jstr "/hooks/", jstr "use"]),
    (jstr "service", [jstr "/services/"]),
    (jstr "middleware", [jstr "/middleware/", jstr "middleware."]),
    (jstr "other", [])]

def pythonConfig : LanguageConfig where
  id := jstr "python"
  displayName := jstr "Python"
  aliases := [jstr "py"]
  extensions := [jstr ".py", jstr ".pyi", jstr ".pyw"]
  excludePatterns := [jstr "__pycache__", jstr ".pyc", jstr ".pyo", jstr ".pyd",
    jstr "venv/", jstr ".venv/", jstr "env/", jstr ".pytest_cache/", jstr "dist/", jstr "build/"]
  manifestFiles := [jstr "requirements.txt", jstr "setup.py", jstr "pyproject.toml",
    jstr "Pipfile", jstr "poetry.lock", jstr "setup.cfg"]
  fileTypes := [
    (jstr "model", [jstr "/models/", jstr "_model.py", jstr "/entities/"]),
    (jstr "view", [jstr "/views/", jstr "_view.py"]),
    (jstr "controller", [jstr "/controllers/", jstr "_controller.py"]),
    (jstr "service", [jstr "/services/", jstr "_service.py"]),
    (jstr "util", [jstr "/utils/", jstr "/helpers/", jstr "_utils.py"]),
    (jstr "test", [jstr "/tests/", jstr "_test.py", jstr "test_"]),
    (jstr "config", [jstr "config.py", jstr "settings.py"]),
    (jstr "api", [jstr "/api/", jstr "/endpoints/"]),
    (jstr "middleware", [jstr "/middleware/"]),
    (jstr "other", [])]

def goConfig : LanguageConfig where
  id := jstr "go"
  displayName := jstr "Go"
  aliases := [jstr "golang"]
  extensions := [jstr ".go"]
  excludePatterns := [jstr "/vendor/", jstr "_test.go", jstr "/testdata/"]
  manifestFiles := [jstr "go.mod", jstr "go.sum"]
  fileTypes := [
    (jstr "handler", [jstr "/handlers/", jstr "/controllers/", jstr "_handler.go"]),
    (jstr "model", [jstr "/models/", jstr "/entities/", jstr "_model.go"]),
    (jstr "service", [jstr "/services/", jstr "_service.go"]),
    (jstr "util", [jstr "/utils/", jstr "/pkg/"]),
    (jstr "test", [jstr "_test.go"]),
    (jstr "middleware", [jstr "/middleware/"]),
    (jstr "api", [jstr "/api/"]),
    (jstr "config", [jstr "config.go"]),
    (jstr "other", [])]

def rustConfig : LanguageConfig where
  id := jstr "rust"
  displayName := jstr "Rust"
  aliases := [jstr "rs"]
  extensions := [jstr ".rs"]
  excludePatterns := [jstr "/target/", jstr "/deps/"]
  manifestFiles := [jstr "Cargo.toml", jstr "Cargo.lock"]
  fileTypes := [
    (jstr "model", [jstr "/models/", jstr "/entities/"]),
    (jstr "service", [jstr "/services/"]),
    (jstr "util", [jstr "/utils/", jstr "/helpers/"]),
    (jstr "handler", [jstr "/handlers/", jstr "/routes/"]),
    (jstr "api", [jstr "/api/"]),
    (jstr "config", [jstr "config.rs"]),
    (jstr "test", [jstr "/tests/", jstr "_test.rs"]),
    (jstr "other", [])]

def javaConfig : LanguageConfig where
  id := jstr "java"
  displayName := jstr "Java"
  aliases := []
  extensions := [jstr ".java"]
  excludePatterns := [jstr "/target/", jstr "/build/", jstr ".class"]
  manifestFiles := [jstr "pom.xml", jstr "build.gradle", jstr "build.gradle.kts",
    jstr "settings.gradle"]
  fileTypes := [
    (jstr "controller", [jstr "/controller/", jstr "Controller.java"]),
    (jstr "service", [jstr "/service/", jstr "Service.java"]),
    (jstr "model", [jstr "/model/", jstr "/entity/", jstr "Entity.java"]),
    (jstr "repository", [jstr "/repository/", jstr "Repository.java"]),
    (jstr "util", [jstr "/util/", jstr "Utils.java"]),
    (jstr "config", [jstr "/config/", jstr "Config.java"]),
    (jstr "api", [jstr "/api/"]),
    (jstr "test", [jstr "/test/", jstr "Test.java"]),
    (jstr "other", [])]

def cppConfig : LanguageConfig where
  id := jstr "cpp"
  displayName := jstr "C/C++"
  aliases := [jstr "c", jstr "c++", jstr "cxx"]
  extensions := [jstr ".cpp", jstr ".cc", jstr ".cxx", jstr ".c", jstr ".h",
    jstr ".hpp", jstr ".hxx"]
  excludePatterns := [jstr "/build/", jstr "/cmake-build-", jstr ".o", jstr ".a", jstr ".so"]
  manifestFiles := [jstr "CMakeLists.txt", jstr "Makefile", jstr "configure.ac"]
  fileTypes := [
    (jstr "header", [jstr ".h", jstr ".hpp", jstr ".hxx"]),
    (jstr "source", [jstr ".cpp", jstr ".cc", jstr ".cxx", jstr ".c"]),
    (jstr "util", [jstr "/utils/", jstr "/helpers/"]),
    (jstr "test", [jstr "/tests/", jstr "_test."]),
    (jstr "config", [jstr "config."]),
    (jstr "other", [])]

def rubyConfig : LanguageConfig where
  id := jstr "ruby"
  displayName := jstr "Ruby"
  aliases := [jstr "rb"]
  extensions := [jstr ".rb", jstr ".rake"]
  excludePatterns := [jstr "/vendor/", jstr ".bundle/"]
  manifestFiles := [jstr "Gemfile", jstr "Gemfile.lock", jstr "Rakefile"]
  fileTypes := [
    (jstr "controller", [jstr "/controllers/", jstr "_controller.rb"]),
    (jstr "model", [jstr "/models/", jstr "_model.rb"]),
    (jstr "view", [jstr "/views/"]),
    (jstr "service", [jstr "/services/", jstr "_service.rb"]),
    (jstr "util", [jstr "/lib/", jstr "/helpers/"]),
    (jstr "test", [jstr "/test/", jstr "/spec/", jstr "_spec.rb"]),
    (jstr "config", [jstr "/config/"]),
    (jstr "other", [])]

def phpConfig : LanguageConfig where
  id := jstr "php"
  displayName := jstr "PHP"
  aliases := []
  extensions := [jstr ".php"]
  excludePatterns := [jstr "/vendor/", jstr "/cache/"]
  manifestFiles := [jstr "composer.json", jstr "composer.lock"]
  fileTypes := [
    (jstr "controller", [jstr "/Controllers/", jstr "Controller.php"]),
    (jstr "model", [jstr "/Models/", jstr "Model.php"]),
    (jstr "service", [jstr "/Services/", jstr "Service.php"]),
    (jstr "view", [jstr "/views/", jstr "/templates/"]),
    (jstr "util", [jstr "/Utils/", jstr "/Helpers/"]),
    (jstr "middleware", [jstr "/Middleware/"]),
    (jstr "test", [jstr "/tests/", jstr "Test.php"]),
    (jstr "config", [jstr "/config/"]),
    (jstr "other", [])]

/-- `LANGUAGE_CONFIGS`: the registry, in its fixed priority order. -/
def LANGUAGE_CONFIGS : List LanguageConfig :=
  [javascriptConfig, pythonConfig, goConfig, rustConfig, javaConfig,
   cppConfig, rubyConfig, phpConfig]

/-- `getLanguageConfig` (`language-configs.ts`):
`find(c => c.id === languageId || c.aliases.includes(languageId.toLowerCase()))`.
Note the `id` comparison uses the raw argument, only the alias test
lowercases. -/
def getLanguageConfig (languageId : JStr) : Option LanguageConfig :=
  LANGUAGE_CONFIGS.find? (fun c =>
    c.id == languageId || decide (jsToLower languageId ∈ c.aliases))

/-! ## Language detector (`lib/parsers/language-detector.ts`) -/

/-- One entry of the GitHub tree listing (only the fields the core
reads: `path` and `type`; `sha` is never used). -/
structure TreeItem where
  path : JStr
  type : JStr
deriving DecidableEq

/-- The optional `metadata` of a detection result. -/
structure DetMeta where
  languageStats : Option (List (JStr × Nat)) := none
  manifestFiles : Option (List JStr) := none
deriving DecidableEq

/-- `LanguageDetection` from `lib/parsers/types.ts`; the method tag is one
of the strings "github-api", "manifest", "extension", "manual". -/
structure LanguageDetection where
  language : JStr
  confidence : ℚ
  method : JStr
  metadata : Option DetMeta := none
deriving DecidableEq

/-- The `LanguageDetector` constructor's `configs` map: `id → config` and
`alias.toLowerCase() → config` for every registry entry.  All keys are
pairwise distinct in the shipped data, so the JS `Map` lookup coincides
with first-match lookup over the insertion sequence. -/
def detectorConfigEntries : List (JStr × LanguageConfig) :=
  LANGUAGE_CONFIGS.flatMap (fun c =>
    (c.id, c) :: c.aliases.map (fun a => (jsToLower a, c)))

/-- `this.configs.get(key)` of the detector. -/
def configsGet (key : JStr) : Option LanguageConfig :=
  (detectorConfigEntries.find? (fun e => e.1 == key)).map (·.2)

/-- `LanguageDetector.getConfig`: case-insensitive map lookup. -/
def detectorGetConfig (languageId : JStr) : Option LanguageConfig :=
  configsGet (jsToLower languageId)

/-- The `mappings` table of `mapGitHubLanguageToId`. -/
def manualMappings : List (JStr × JStr) :=
  [(jstr "typescript", jstr "javascript"),
   (jstr "tsx", jstr "javascript"),
   (jstr "jsx", jstr "javascript"),
   (jstr "c++", jstr "cpp"),
   (jstr "c#", jstr "csharp")]

/-- `mapGitHubLanguageToId`: registry/alias lookup first, then the manual
mapping table, otherwise the lowercased GitHub name itself. -/
def mapGitHubLanguageToId (githubLanguage : JStr) : JStr :=
  match configsGet (jsToLower githubLanguage) with
  | some config => config.id
  | none =>
    match (manualMappings.find? (fun e => e.1 == jsToLower githubLanguage)).map (·.2) with
    | some mapped => mapped
    | none => jsToLower githubLanguage

/-- Insertion step of the stable descending sort: an element is placed
before the first strictly smaller value, after earlier equal values. -/
def insertDescByVal (x : JStr × Nat) : List (JStr × Nat) → List (JStr × Nat)
  | [] => [x]
  | y :: ys => if y.2 ≤ x.2 then x :: y :: ys else y :: insertDescByVal x ys

/-- The stable descending sort `entries.sort(([,a],[,b]) => b - a)` used on
byte counts and file counts: JS `Array.prototype.sort` is stable, and a
stable sort under a total preorder is unique, so stable insertion sort
models it exactly. -/
def sortDescByVal : List (JStr × Nat) → List (JStr × Nat)
  | [] => []
  | x :: xs => insertDescByVal x (sortDescByVal xs)

/-- Pure core of `detectFromGitHubAPI`, applied to the languages record of
a successful `/languages` response (the caller passes `none` when the
fetch failed or was not ok, which the source maps to a `null` result). -/
def detectFromGitHubAPIStats (languages : List (JStr × Nat)) :
    Option LanguageDetection :=
  if (languages.map (·.2)).sum = 0 then none
  else
    match sortDescByVal languages with
    | [] => none
    | (primaryLanguage, primaryBytes) :: _ =>
      some { language := mapGitHubLanguageToId primaryLanguage
             confidence := (primaryBytes : ℚ) / (((languages.map (·.2)).sum : Nat) : ℚ)
             method := jstr "github-api"
             metadata := some { languageStats := some languages } }

/-- The lowercased blob paths scanned by `detectFromManifests`. -/
def manifestFilePaths (tree : List TreeItem) : List JStr :=
  (tree.filter (fun item => item.type == jstr "blob")).map
    (fun item => jsToLower item.path)

/-- The `detectedManifests` accumulator: `(config.id, manifestFile)` for
every registry entry whose manifest filename occurs (case-insensitively)
in the path list, in registry order. -/
def detectedManifests (tree : List TreeItem) : List (JStr × JStr) :=
  LANGUAGE_CONFIGS.flatMap (fun config =>
    config.manifestFiles.filterMap (fun manifestFile =>
      if jsToLower manifestFile ∈ manifestFilePaths tree then
        some (config.id, manifestFile)
      else none))

/-- `detectFromManifests`. -/
def detectFromManifests (tree : List TreeItem) : Option LanguageDetection :=
  match detectedManifests tree with
  | [] => none
  | primaryManifest :: _ =>
    some { language := primaryManifest.1
           confidence := 4/5
           method := jstr "manifest"
           metadata := some { manifestFiles := some ((detectedManifests tree).map (·.2)) } }

/-- `getExtension`: the regex `(\.[^/.]+)$` — a final dot followed by one
or more characters none of which is `/` or `.`. -/
def getExtension (path : JStr) : Option JStr :=
  let rev := path.reverse
  let run := rev.takeWhile (fun c => ¬ (c = '.' ∨ c = '/'))
  match rev.drop run.length with
  | '.' :: _ => if run.isEmpty then none else some ('.' :: run.reverse)
  | _ => none

/-- `findLanguageByExtension`. -/
def findLanguageByExtension (ext : JStr) : Option JStr :=
  (LANGUAGE_CONFIGS.find? (fun config => decide (ext ∈ config.extensions))).map (·.id)

/-- Increment a counter in an insertion-ordered counting object
(`obj[k] = (obj[k] || 0) + n`). -/
def bumpCount (l : List (JStr × Nat)) (k : JStr) (n : Nat) : List (JStr × Nat) :=
  if l.any (fun e => e.1 == k) then
    l.map (fun e => if e.1 = k then (e.1, e.2 + n) else e)
  else l ++ [(k, n)]

/-- The `extensionCounts` object of `detectFromExtensions`. -/
def extensionCounts (tree : List TreeItem) : List (JStr × Nat) :=
  tree.foldl (fun acc item =>
    if item.type == jstr "blob" then
      match getExtension item.path with
      | some ext => bumpCount acc ext 1
      | none => acc
    else acc) []

/-- The `languageCounts` object of `detectFromExtensions`. -/
def languageCounts (tree : List TreeItem) : List (JStr × Nat) :=
  (extensionCounts tree).foldl (fun acc e =>
    match findLanguageByExtension e.1 with
    | some languageId => bumpCount acc languageId e.2
    | none => acc) []

/-- `detectFromExtensions`. -/
def detectFromExtensions (tree : List TreeItem) : Option LanguageDetection :=
  if (languageCounts tree).isEmpty then none
  else
    match sortDescByVal (languageCounts tree) with
    | [] => none
    | (primaryLanguage, primaryCount) :: _ =>
      some { language := primaryLanguage
             confidence := (primaryCount : ℚ) /
               ((((languageCounts tree).map (·.2)).sum : Nat) : ℚ)
             method := jstr "extension" }

/-- `detectLanguage`, with the outcome of the GitHub `/languages` fetch
supplied as data (`none` models a failed or non-ok request, which the
source converts to a `null` detection) and the optional tree listing. -/
def detectLanguagePure (apiLanguages : Option (List (JStr × Nat)))
    (tree : Option (List TreeItem)) : LanguageDetection :=
  match apiLanguages.bind detectFromGitHubAPIStats with
  | some detection => detection
  | none =>
    match tree.bind detectFromManifests with
    | some detection => detection
    | none =>
      match tree.bind detectFromExtensions with
      | some detection => detection
      | none =>
        { language := jstr "javascript", confidence := 3/10, method := jstr "manual" }

/-- The manual-override detection built in `app/api/dependencies/route.ts`
when the `lang` query parameter is present. -/
def manualDetection (manualLanguage : JStr) : LanguageDetection :=
  { language := jsToLower manualLanguage, confidence := 1, method := jstr "manual" }

/-! ## File classification shared by the parsers -/

/-- `getFileType` of both parsers: first `fileTypes` entry owning a
pattern contained in the path, default `"other"`. -/
def fileTypeFor (config : LanguageConfig) (path : JStr) : JStr :=
  match config.fileTypes.find? (fun ft => ft.2.any (fun pattern => hasSub pattern path)) with
  | some ft => ft.1
  | none => jstr "other"

/-! ## Python parser (`lib/parsers/python-parser.ts`)

The three import regexes all carry the `m` flag and a `^` anchor, so they
match line by line; each line-level pattern is embedded as a
deterministic matcher (the character classes involved — `\s`, `\w`, `.`
— are pairwise disjoint, so the regex engine's greedy matching is
deterministic here). -/

/-- JS `\s` (ASCII range; the inputs considered contain no exotic
Unicode whitespace). -/
def jsWS (c : Char) : Bool :=
  c == ' ' || c == '\t' || c == '\n' || c == '\r' || c == '\x0b' || c == '\x0c'

/-- JS `\w`. -/
def wordChar (c : Char) : Bool := c.isAlphanum || c == '_'

/-- The class `[\w.]`. -/
def dotWordChar (c : Char) : Bool := wordChar c || c == '.'

/-- Consume a literal lead-in. -/
def chompLead (pre s : JStr) : Option JStr :=
  if leadsWith pre s then some (s.drop pre.length) else none

/-- Consume `\s+` (at least one whitespace character). -/
def chompWS1 : JStr → Option JStr
  | [] => none
  | c :: cs => if jsWS c then some (cs.dropWhile jsWS) else none

/-- `^import\s+([\w.]+)(?:\s+as\s+\w+)?$` applied to one line; returns the
captured module path. -/
def matchSimpleImport (line : JStr) : Option JStr :=
  match chompLead (jstr "import") line with
  | none => none
  | some r1 =>
    match chompWS1 r1 with
    | none => none
    | some r2 =>
      let capture := r2.takeWhile dotWordChar
      let rest := r2.dropWhile dotWordChar
      if capture.isEmpty then none
      else if rest.isEmpty then some capture
      else
        match chompWS1 rest with
        | none => none
        | some r3 =>
          match chompLead (jstr "as") r3 with
          | none => none
          | some r4 =>
            match chompWS1 r4 with
            | none => none
            | some r5 =>
              if (r5.takeWhile wordChar).isEmpty then none
              else if (r5.dropWhile wordChar).isEmpty then some capture
              else none

/-- `^from\s+([\w.]+)\s+import\s+` applied to one line. -/
def matchFromModule (line : JStr) : Option JStr :=
  match chompLead (jstr "from") line with
  | none => none
  | some r1 =>
    match chompWS1 r1 with
    | none => none
    | some r2 =>
      let capture := r2.takeWhile dotWordChar
      if capture.isEmpty then none
      else
        match chompWS1 (r2.dropWhile dotWordChar) with
        | none => none
        | some r3 =>
          match chompLead (jstr "import") r3 with
          | none => none
          | some r4 =>
            match chompWS1 r4 with
            | none => none
            | some _ => some capture

/-- `^from\s+(\.+[\w.]*)\s+import\s+` applied to one line: like
`matchFromModule` but the capture must begin with a dot. -/
def matchRelModule (line : JStr) : Option JStr :=
  match matchFromModule line with
  | none => none
  | some capture => if capture.head? = some '.' then some capture else none

/-- The `stdLibModules` list of `isExternalModule`. -/
def pyStdLibModules : List JStr :=
  [jstr "os", jstr "sys", jstr "re", jstr "json", jstr "math", jstr "time",
   jstr "datetime", jstr "collections", jstr "itertools", jstr "functools",
   jstr "pathlib", jstr "typing", jstr "asyncio", jstr "urllib", jstr "http",
   jstr "logging", jstr "unittest", jstr "pytest", jstr "abc", jstr "io",
   jstr "csv", jstr "random", jstr "string", jstr "copy", jstr "pickle",
   jstr "subprocess", jstr "threading", jstr "multiprocessing"]

/-- The `commonPackages` list of `isExternalModule`. -/
def pyCommonPackages : List JStr :=
  [jstr "django", jstr "flask", jstr "fastapi", jstr "requests", jstr "numpy",
   jstr "pandas", jstr "sqlalchemy", jstr "pydantic", jstr "pytest", jstr "click",
   jstr "boto3", jstr "celery", jstr "redis"]

/-- `PythonParser.isExternalModule`. -/
def pyIsExternalModule (modulePath : JStr) : Bool :=
  let topLevelModule := match splitChar '.' modulePath with
    | [] => []
    | t :: _ => t
  decide (topLevelModule ∈ pyStdLibModules) || decide (topLevelModule ∈ pyCommonPackages)

/-- `PythonParser.resolveImportPath`: dots to slashes plus `.py`. -/
def pyResolveImportPath (modulePath : JStr) (_currentPath : JStr) : JStr :=
  (modulePath.map (fun c => if c = '.' then '/' else c)) ++ jstr ".py"

/-- Body of `resolveRelativeImport` once the dot count, the remaining
module part, and the current directory stack are computed:
`currentDir.slice(0, currentDir.length - (dotCount - 1))` uses JS
`Array.slice`, whose negative end index counts back from the end of the
array; an empty slice is "trying to go above root" and the import is
dropped. -/
def pyRelCore (dotCount : Nat) (modulePart : JStr) (currentDir : List JStr) : Option JStr :=
  if (jsSliceTo currentDir ((currentDir.length : Int) - ((dotCount : Int) - 1))).length = 0 then
    none
  else if modulePart.isEmpty then
    some (joinChar '/'
      (jsSliceTo currentDir ((currentDir.length : Int) - ((dotCount : Int) - 1)))
      ++ jstr "/__init__.py")
  else
    some (joinChar '/'
      (jsSliceTo currentDir ((currentDir.length : Int) - ((dotCount : Int) - 1)))
      ++ jstr "/" ++ (modulePart.map (fun ch => if ch = '.' then '/' else ch)) ++ jstr ".py")

/-- `PythonParser.resolveRelativeImport`: count the leading dots (none →
no match → `null`), then resolve against the current file's directory
list. -/
def pyResolveRelativeImport (relativePath currentPath : JStr) : Option JStr :=
  if (relativePath.takeWhile (fun ch => ch == '.')).isEmpty then none
  else
    pyRelCore (relativePath.takeWhile (fun ch => ch == '.')).length
      (relativePath.drop (relativePath.takeWhile (fun ch => ch == '.')).length)
      ((splitChar '/' currentPath).dropLast)

/-- `PythonParser.parseImports`: the three regex passes, in source order
(simple imports, then `from` imports, then relative imports). -/
def pyParseImports (content currentPath : JStr) : List JStr :=
  let ls := splitChar '\n' content
  let processAbsolute : JStr → Option JStr := fun modulePath =>
    if pyIsExternalModule modulePath then none
    else
      let resolvedPath := pyResolveImportPath modulePath currentPath
      if resolvedPath.isEmpty then none else some resolvedPath
  (ls.filterMap matchSimpleImport).filterMap processAbsolute
    ++ (ls.filterMap matchFromModule).filterMap processAbsolute
    ++ (ls.filterMap matchRelModule).filterMap (fun relativePath =>
        match pyResolveRelativeImport relativePath currentPath with
        | some resolvedPath => if resolvedPath.isEmpty then none else some resolvedPath
        | none => none)

/-- `replace(/\.py$/, "")`. -/
def stripDotPy (s : JStr) : JStr :=
  if trailsWith (jstr ".py") s then s.take (s.length - 3) else s

/-- `replace(/\.pyi?$/, "")`. -/
def stripDotPyi (s : JStr) : JStr :=
  if trailsWith (jstr ".pyi") s then s.take (s.length - 4)
  else if trailsWith (jstr ".py") s then s.take (s.length - 3)
  else s

/-- `PythonParser.matchImportToFile`. -/
def pyMatchImportToFile (importPath : JStr) (availableFiles : List JStr) : Option JStr :=
  if importPath ∈ availableFiles then some importPath
  else
    match (if ¬ trailsWith (jstr ".py") importPath = true then
            (if importPath ++ jstr ".py" ∈ availableFiles then
              some (importPath ++ jstr ".py") else none)
           else none) with
    | some withPy => some withPy
    | none =>
      if stripDotPy importPath ++ jstr "/__init__.py" ∈ availableFiles then
        some (stripDotPy importPath ++ jstr "/__init__.py")
      else
        firstIn [stripDotPyi importPath ++ jstr ".py", stripDotPyi importPath ++ jstr ".pyi",
                 stripDotPyi importPath ++ jstr "/__init__.py"] availableFiles

/-! ## ECMAScript-family parser (`lib/parsers/javascript-parser.ts`) -/

/-- `replace(/\.(tsx?|jsx?|mjs|cjs)$/, "")`: strip one recognized
extension suffix if present. -/
def jsStripExt (s : JStr) : JStr :=
  if trailsWith (jstr ".tsx") s || trailsWith (jstr ".jsx") s
      || trailsWith (jstr ".mjs") s || trailsWith (jstr ".cjs") s then
    s.take (s.length - 4)
  else if trailsWith (jstr ".ts") s || trailsWith (jstr ".js") s then
    s.take (s.length - 3)
  else s

/-- The `variations` array of `JavaScriptParser.matchImportToFile`. -/
def jsVariations (withoutExt : JStr) : List JStr :=
  [withoutExt ++ jstr ".ts", withoutExt ++ jstr ".tsx", withoutExt ++ jstr ".js",
   withoutExt ++ jstr ".jsx", withoutExt ++ jstr ".mjs", withoutExt ++ jstr ".cjs",
   withoutExt ++ jstr "/index.ts", withoutExt ++ jstr "/index.tsx",
   withoutExt ++ jstr "/index.js", withoutExt ++ jstr "/index.jsx",
   withoutExt ++ jstr "/index.mjs", withoutExt ++ jstr "/index.cjs"]

/-- `JavaScriptParser.matchImportToFile`.  The self-recursion of the
source (retry without a `packages/` lead-in, retry with an `apps/`
lead-in) terminates because stripping `packages/` shortens the argument
and an `apps/`-prefixed argument recurses no further. -/
def jsMatchImportToFile (importPath : JStr) (availableFiles : List JStr) : Option JStr :=
  if importPath ∈ availableFiles then some importPath
  else
    match firstIn (jsVariations (jsStripExt importPath)) availableFiles with
    | some variation => some variation
    | none =>
      if h1 : leadsWith (jstr "packages/") importPath = true then
        jsMatchImportToFile (importPath.drop 9) availableFiles
      else if h2 : leadsWith (jstr "apps/") importPath = true then
        none
      else
        jsMatchImportToFile (jstr "apps/" ++ importPath) availableFiles
termination_by importPath.length +
  (if leadsWith (jstr "apps/") importPath || leadsWith (jstr "packages/") importPath
   then 0 else 6)
decreasing_by
  · have hlen : (9 : Nat) ≤ importPath.length := leadsWith_length h1
    have hd : (importPath.drop 9).length = importPath.length - 9 := List.length_drop 9 importPath
    have h0 : (if leadsWith (jstr "apps/") importPath
        || leadsWith (jstr "packages/") importPath then 0 else 6) = 0 := by
      simp [h1]
    have hb : (if leadsWith (jstr "apps/") (importPath.drop 9)
        || leadsWith (jstr "packages/") (importPath.drop 9) then 0 else 6) ≤ 6 := by
      split <;> omega
    omega
  · have ha : leadsWith (jstr "apps/") (jstr "apps/" ++ importPath) = true :=
      leadsWith_append _ _
    have h0 : (if leadsWith (jstr "apps/") importPath
        || leadsWith (jstr "packages/") importPath then 0 else 6) = 6 := by
      simp [h1, h2]
    have h0' : (if leadsWith (jstr "apps/") (jstr "apps/" ++ importPath)
        || leadsWith (jstr "packages/") (jstr "apps/" ++ importPath) then 0 else 6) = 0 := by
      simp [ha]
    have hl : (jstr "apps/" ++ importPath).length = 5 + importPath.length := by
      simp [jstr]
      omega
    omega

/-- The fold body of `normalizePath`: `..` pops, `.` is skipped, anything
else is pushed. -/
def normalizeParts (parts relativeParts : List JStr) : List JStr :=
  relativeParts.foldl (fun ps part =>
    if part = jstr ".." then ps.dropLast
    else if part = jstr "." then ps
    else ps ++ [part]) parts

/-- `JavaScriptParser.normalizePath`. -/
def jsNormalizePath (currentDir relativePath : JStr) : JStr :=
  joinChar '/' (normalizeParts
    ((splitChar '/' currentDir).filter (fun p => !p.isEmpty))
    (splitChar '/' relativePath))

/-- `JavaScriptParser.resolveImportPath`. -/
def jsResolveImportPath (importPath currentPath : JStr) : JStr :=
  if leadsWith (jstr "@/") importPath then importPath.drop 2
  else if leadsWith (jstr "~/") importPath then importPath.drop 2
  else if leadsWith (jstr "./") importPath || leadsWith (jstr "../") importPath then
    let currentDir := joinChar '/' (splitChar '/' currentPath).dropLast
    jsNormalizePath currentDir importPath
  else if hasSub (jstr "packages/") currentPath || hasSub (jstr "apps/") currentPath then
    jstr "packages/" ++ importPath
  else importPath

/-! ## Graph builder (`app/api/dependencies/route.ts`, lines 206–252) -/

/-- `FileNode` of the route module. -/
structure FileNode where
  path : JStr
  type : JStr
  imports : List JStr
  importedBy : List JStr
deriving DecidableEq

instance : Inhabited FileNode := ⟨⟨[], [], [], []⟩⟩

/-- The capability record the route consumes from the parser registry
(the fields of `LanguageParser` that the builder reads, with
`matchImportToFile`, which both shipped parsers expose). -/
structure BuildParser where
  parseImports : JStr → JStr → List JStr
  getFileType : JStr → JStr
  matchImportToFile : JStr → List JStr → Option JStr
  extensions : List JStr
  excludePatterns : List JStr

/-- The shipped Python parser. -/
def pythonParser : BuildParser where
  parseImports := pyParseImports
  getFileType := fileTypeFor pythonConfig
  matchImportToFile := pyMatchImportToFile
  extensions := pythonConfig.extensions
  excludePatterns := pythonConfig.excludePatterns

/-- The shipped ECMAScript-family parser, abstracted over its regex-based
`parseImports` pass (none of the graph invariants proved below depend
on it). -/
def jsParserWith (parseImports : JStr → JStr → List JStr) : BuildParser where
  parseImports := parseImports
  getFileType := fileTypeFor javascriptConfig
  matchImportToFile := jsMatchImportToFile
  extensions := javascriptConfig.extensions
  excludePatterns := javascriptConfig.excludePatterns

/-- The `nodes: Map<string, FileNode>` of the route, as an
insertion-ordered association list (JS `Map` iteration order). -/
abbrev NodeMap := List (JStr × FileNode)

/-- `nodes.get(k)`. -/
def mapGet : NodeMap → JStr → Option FileNode
  | [], _ => none
  | e :: es, k => if e.1 = k then some e.2 else mapGet es k

/-- `nodes.set(k, v)`: replace in place if the key exists, else append. -/
def mapSet (m : NodeMap) (k : JStr) (v : FileNode) : NodeMap :=
  if k ∈ m.map (·.1) then m.map (fun e => if e.1 = k then (k, v) else e)
  else m ++ [(k, v)]

/-- Mutation of the node object stored under `k` (a no-op when the key is
absent, matching the `if (targetNode)` guard). -/
def updateNode (m : NodeMap) (k : JStr) (f : FileNode → FileNode) : NodeMap :=
  m.map (fun e => if e.1 = k then (e.1, f e.2) else e)

/-- Phase 1 of the build: one `FileNode` per supplied file. -/
def initialNodes (p : BuildParser) (files : List (JStr × JStr)) : NodeMap :=
  files.foldl (fun m f =>
    mapSet m f.1 { path := f.1, type := p.getFileType f.1, imports := [], importedBy := [] }) []

/-- Processing of one resolved import candidate of the file `src`:
match it against the known paths; on success push the target into the
source's `imports`, the source into the target's `importedBy`, and the
edge onto the edge array. -/
def stepImport (p : BuildParser) (avail : List JStr) (src : JStr)
    (st : NodeMap × List (JStr × JStr)) (importPath : JStr) :
    NodeMap × List (JStr × JStr) :=
  match p.matchImportToFile importPath avail with
  | none => st
  | some matchingPath =>
    let m1 := updateNode st.1 src (fun n => { n with imports := n.imports ++ [matchingPath] })
    let m2 := updateNode m1 matchingPath (fun n => { n with importedBy := n.importedBy ++ [src] })
    (m2, st.2 ++ [(src, matchingPath)])

/-- Processing of one file in phase 2 (`continue` on empty content, then
the `if (node)` guard, then the loop over parsed imports). -/
def stepFile (p : BuildParser) (avail : List JStr)
    (st : NodeMap × List (JStr × JStr)) (file : JStr × JStr) :
    NodeMap × List (JStr × JStr) :=
  if file.2.isEmpty then st
  else
    match mapGet st.1 file.1 with
    | none => st
    | some _ => (p.parseImports file.2 file.1).foldl (stepImport p avail file.1) st

/-- The graph payload (`nodes` in map iteration order, `edges` in
creation order). -/
structure DepGraph where
  nodes : List FileNode
  edges : List (JStr × JStr)
deriving DecidableEq

/-- The full graph build of the route over fetched `(path, content)`
pairs (an empty content models a failed or size-skipped fetch). -/
def buildGraph (p : BuildParser) (files : List (JStr × JStr)) : DepGraph :=
  { nodes := (files.foldl (stepFile p ((initialNodes p files).map (·.1)))
      (initialNodes p files, [])).1.map (·.2)
    edges := (files.foldl (stepFile p ((initialNodes p files).map (·.1)))
      (initialNodes p files, [])).2 }

/-- The node path set of a graph. -/
def nodePaths (g : DepGraph) : List JStr := g.nodes.map (·.path)

/-- The filter stage of `codeFiles`: blobs whose path matches one of the
parser's extensions (the `$`-anchored alternation regex) and contains no
excluded pattern. -/
def codeFilesAll (p : BuildParser) (tree : List TreeItem) : List TreeItem :=
  tree.filter (fun item =>
    item.type == jstr "blob"
    && p.extensions.any (fun ext => trailsWith ext item.path)
    && !(p.excludePatterns.any (fun pattern => hasSub pattern item.path)))

/-- `codeFiles` of the route: the filtered blobs truncated to the first
200 entries (`.slice(0, 200)`). -/
def codeFiles (p : BuildParser) (tree : List TreeItem) : List TreeItem :=
  (codeFilesAll p tree).take 200

/-- The route pipeline from the fetched tree listing to the graph, with
the per-path content fetch outcome supplied as a function (failed or
skipped fetches yield the empty string, as in the source). -/
def buildFromTree (p : BuildParser) (tree : List TreeItem) (content : JStr → JStr) : DepGraph :=
  buildGraph p ((codeFiles p tree).map (fun item => (item.path, content item.path)))

/-! ## Builder lemmas -/

theorem updateNode_keys (m : NodeMap) (k : JStr) (f : FileNode → FileNode) :
    (updateNode m k f).map (·.1) = m.map (·.1) := by
  induction m with
  | nil => rfl
  | cons e es ih =>
    simp only [updateNode, List.map_cons] at ih ⊢
    by_cases h : e.1 = k <;> simp [h, ih]

theorem mapGet_eq_none (m : NodeMap) (k : JStr) :
    mapGet m k = none ↔ k ∉ m.map (·.1) := by
  induction m with
  | nil => simp [mapGet]
  | cons e es ih =>
    by_cases h : e.1 = k
    · simp [mapGet, h]
    · simp [mapGet, h, ih, Ne.symm h]

theorem stepImport_keys (p : BuildParser) (avail : List JStr) (src : JStr)
    (st : NodeMap × List (JStr × JStr)) (imp : JStr) :
    ((stepImport p avail src st imp).1).map (·.1) = st.1.map (·.1) := by
  unfold stepImport
  cases p.matchImportToFile imp avail <;> simp [updateNode_keys]

theorem foldImports_keys (p : BuildParser) (avail : List JStr) (src : JStr)
    (l : List JStr) (st : NodeMap × List (JStr × JStr)) :
    ((l.foldl (stepImport p avail src) st).1).map (·.1) = st.1.map (·.1) := by
  induction l generalizing st with
  | nil => rfl
  | cons i is ih => rw [List.foldl_cons, ih, stepImport_keys]

theorem stepFile_keys (p : BuildParser) (avail : List JStr)
    (st : NodeMap × List (JStr × JStr)) (f : JStr × JStr) :
    ((stepFile p avail st f).1).map (·.1) = st.1.map (·.1) := by
  unfold stepFile
  split
  · rfl
  · cases mapGet st.1 f.1 <;> simp [foldImports_keys]

theorem foldFiles_keys (p : BuildParser) (avail : List JStr)
    (files : List (JStr × JStr)) (st : NodeMap × List (JStr × JStr)) :
    ((files.foldl (stepFile p avail) st).1).map (·.1) = st.1.map (·.1) := by
  induction files generalizing st with
  | nil => rfl
  | cons f fs ih => rw [List.foldl_cons, ih, stepFile_keys]

/-- The edges contributed by one file of the phase-2 loop. -/
def fileEdges (p : BuildParser) (avail : List JStr) (file : JStr × JStr) :
    List (JStr × JStr) :=
  if file.2.isEmpty then []
  else (p.parseImports file.2 file.1).filterMap (fun imp =>
    (p.matchImportToFile imp avail).map (fun mp => (file.1, mp)))

theorem foldImports_snd (p : BuildParser) (avail : List JStr) (src : JStr)
    (l : List JStr) (st : NodeMap × List (JStr × JStr)) :
    (l.foldl (stepImport p avail src) st).2 =
      st.2 ++ l.filterMap (fun imp =>
        (p.matchImportToFile imp avail).map (fun mp => (src, mp))) := by
  induction l generalizing st with
  | nil => simp
  | cons i is ih =>
    rw [List.foldl_cons, ih]
    unfold stepImport
    cases h : p.matchImportToFile i avail <;> simp [h]

theorem stepFile_snd (p : BuildParser) (avail : List JStr)
    (st : NodeMap × List (JStr × JStr)) (f : JStr × JStr)
    (hf : f.1 ∈ st.1.map (·.1)) :
    (stepFile p avail st f).2 = st.2 ++ fileEdges p avail f := by
  unfold stepFile fileEdges
  split
  · simp
  · cases hg : mapGet st.1 f.1 with
    | none => exact absurd hf ((mapGet_eq_none st.1 f.1).1 hg)
    | some n => rw [foldImports_snd]

theorem foldFiles_snd (p : BuildParser) (avail : List JStr)
    (files : List (JStr × JStr)) (st : NodeMap × List (JStr × JStr))
    (h : ∀ f ∈ files, f.1 ∈ st.1.map (·.1)) :
    (files.foldl (stepFile p avail) st).2 =
      st.2 ++ files.flatMap (fileEdges p avail) := by
  induction files generalizing st with
  | nil => simp
  | cons f fs ih =>
    rw [List.foldl_cons, ih, stepFile_snd p avail st f (h f (List.mem_cons_self f fs)),
      List.flatMap_cons, List.append_assoc]
    intro g hg
    rw [stepFile_keys]
    exact h g (List.mem_cons_of_mem f hg)

theorem map_fst_replace (m : NodeMap) (k : JStr) (v : FileNode) :
    (m.map (fun e => if e.1 = k then (k, v) else e)).map (·.1) = m.map (·.1) := by
  induction m with
  | nil => rfl
  | cons e es ih =>
    by_cases h : e.1 = k <;> simp [h, ih]

theorem mapSet_mem_keys (m : NodeMap) (k : JStr) (v : FileNode) (x : JStr) :
    x ∈ (mapSet m k v).map (·.1) ↔ x ∈ m.map (·.1) ∨ x = k := by
  unfold mapSet
  split
  · rename_i hmem
    rw [map_fst_replace]
    constructor
    · exact Or.inl
    · rintro (hx | rfl)
      · exact hx
      · exact hmem
  · simp [or_comm]

theorem initialNodes_mem_keys (p : BuildParser) (files : List (JStr × JStr)) (k : JStr) :
    k ∈ (initialNodes p files).map (·.1) ↔ k ∈ files.map (·.1) := by
  suffices hgen : ∀ m : NodeMap,
      (k ∈ (files.foldl (fun m f =>
        mapSet m f.1 ⟨f.1, p.getFileType f.1, [], []⟩) m).map (·.1) ↔
        k ∈ m.map (·.1) ∨ k ∈ files.map (·.1)) by
    have := hgen []
    simpa [initialNodes] using this
  induction files with
  | nil => simp
  | cons f fs ih =>
    intro m
    rw [List.foldl_cons, ih, mapSet_mem_keys]
    simp only [List.map_cons, List.mem_cons]
    tauto

theorem mem_updateNode {m : NodeMap} {k : JStr} {f : FileNode → FileNode}
    {e : JStr × FileNode} (h : e ∈ updateNode m k f) :
    ∃ e0 ∈ m, e = if e0.1 = k then (e0.1, f e0.2) else e0 := by
  simp only [updateNode, List.mem_map] at h
  obtain ⟨e0, h0, he⟩ := h
  exact ⟨e0, h0, he.symm⟩

/-- Characterization invariant of the phase-2 state: every node object
stores its own key as `path`, its classification, and exactly the edge
lists derivable from the edge array built so far. -/
def NodeChar (p : BuildParser) (m : NodeMap) (es : List (JStr × JStr)) : Prop :=
  ∀ e ∈ m, e.2.path = e.1 ∧ e.2.type = p.getFileType e.1 ∧
    e.2.imports = (es.filter (fun ed => ed.1 == e.1)).map (·.2) ∧
    e.2.importedBy = (es.filter (fun ed => ed.2 == e.1)).map (·.1)

theorem NodeChar_stepImport (p : BuildParser) (avail : List JStr) (src : JStr)
    (st : NodeMap × List (JStr × JStr)) (imp : JStr) (h : NodeChar p st.1 st.2) :
    NodeChar p (stepImport p avail src st imp).1 (stepImport p avail src st imp).2 := by
  unfold stepImport
  cases hm : p.matchImportToFile imp avail with
  | none => exact h
  | some mp =>
    intro e he
    simp only at he ⊢
    obtain ⟨e1, he1, hform1⟩ := mem_updateNode he
    obtain ⟨e0, he0, hform0⟩ := mem_updateNode he1
    obtain ⟨hp, ht, him, hby⟩ := h e0 he0
    by_cases h1 : e0.1 = src <;> by_cases h2 : e0.1 = mp <;>
      simp only [h1, h2, if_pos, if_neg, hform0] at hform1 <;>
      subst hform1
    · simp_all [List.filter_append, List.filter_cons, List.filter_nil]
    · have hms : ¬mp = src := fun hh => h2 (h1.trans hh.symm)
      simp_all [List.filter_append, List.filter_cons, List.filter_nil]
    · have hsm : ¬src = mp := fun hh => h1 (h2.trans hh.symm)
      simp_all [List.filter_append, List.filter_cons, List.filter_nil]
    · have ha : ¬src = e0.1 := fun hh => h1 hh.symm
      have hb : ¬mp = e0.1 := fun hh => h2 hh.symm
      simp_all [List.filter_append, List.filter_cons, List.filter_nil]

theorem NodeChar_foldImports (p : BuildParser) (avail : List JStr) (src : JStr)
    (l : List JStr) (st : NodeMap × List (JStr × JStr)) (h : NodeChar p st.1 st.2) :
    NodeChar p ((l.foldl (stepImport p avail src) st)).1
      ((l.foldl (stepImport p avail src) st)).2 := by
  induction l generalizing st with
  | nil => exact h
  | cons i is ih =>
    rw [List.foldl_cons]
    exact ih _ (NodeChar_stepImport p avail src st i h)

theorem NodeChar_stepFile (p : BuildParser) (avail : List JStr)
    (st : NodeMap × List (JStr × JStr)) (f : JStr × JStr) (h : NodeChar p st.1 st.2) :
    NodeChar p (stepFile p avail st f).1 (stepFile p avail st f).2 := by
  unfold stepFile
  split
  · exact h
  · cases mapGet st.1 f.1 with
    | none => exact h
    | some n => exact NodeChar_foldImports p avail f.1 _ st h

theorem NodeChar_foldFiles (p : BuildParser) (avail : List JStr)
    (files : List (JStr × JStr)) (st : NodeMap × List (JStr × JStr))
    (h : NodeChar p st.1 st.2) :
    NodeChar p ((files.foldl (stepFile p avail) st)).1
      ((files.foldl (stepFile p avail) st)).2 := by
  induction files generalizing st with
  | nil => exact h
  | cons f fs ih =>
    rw [List.foldl_cons]
    exact ih _ (NodeChar_stepFile p avail st f h)

theorem initialNodes_values (p : BuildParser) (files : List (JStr × JStr)) :
    ∀ e ∈ initialNodes p files,
      e.2 = ⟨e.1, p.getFileType e.1, [], []⟩ := by
  suffices hgen : ∀ m : NodeMap, (∀ e ∈ m, e.2 = ⟨e.1, p.getFileType e.1, [], []⟩) →
      ∀ e ∈ files.foldl (fun m f =>
        mapSet m f.1 ⟨f.1, p.getFileType f.1, [], []⟩) m,
        e.2 = ⟨e.1, p.getFileType e.1, [], []⟩ by
    exact hgen [] (by simp)
  induction files with
  | nil => exact fun m hm => hm
  | cons f fs ih =>
    intro m hm
    rw [List.foldl_cons]
    refine ih _ ?_
    intro e he
    unfold mapSet at he
    split at he
    · simp only [List.mem_map] at he
      obtain ⟨e0, he0, rfl⟩ := he
      by_cases h0 : e0.1 = f.1
      · simp [h0]
      · simpa [h0] using hm e0 he0
    · rcases List.mem_append.1 he with hl | hr
      · exact hm e hl
      · simp only [List.mem_singleton] at hr
        simp [hr]

theorem NodeChar_initial (p : BuildParser) (files : List (JStr × JStr)) :
    NodeChar p (initialNodes p files) [] := by
  intro e he
  have := initialNodes_values p files e he
  simp [this]

/-- Characterization of the finished graph: every node's `path` is its
map key, its `type` is the parser classification, and its edge lists are
exactly the projections of the final edge array. -/
theorem buildGraph_char (p : BuildParser) (files : List (JStr × JStr)) :
    ∀ n ∈ (buildGraph p files).nodes,
      n.type = p.getFileType n.path ∧
      n.imports = (((buildGraph p files).edges).filter
        (fun ed => ed.1 == n.path)).map (·.2) ∧
      n.importedBy = (((buildGraph p files).edges).filter
        (fun ed => ed.2 == n.path)).map (·.1) := by
  intro n hn
  unfold buildGraph at hn ⊢
  simp only [List.mem_map] at hn
  obtain ⟨e, he, rfl⟩ := hn
  have hchar := NodeChar_foldFiles p ((initialNodes p files).map (·.1)) files
    (initialNodes p files, []) (NodeChar_initial p files) e he
  obtain ⟨hp, ht, him, hby⟩ := hchar
  rw [hp]
  exact ⟨ht, him, hby⟩

/-- Final node paths are exactly the phase-1 keys. -/
theorem buildGraph_nodePaths (p : BuildParser) (files : List (JStr × JStr)) :
    nodePaths (buildGraph p files) = (initialNodes p files).map (·.1) := by
  unfold nodePaths buildGraph
  simp only [List.map_map]
  have hkeys := foldFiles_keys p ((initialNodes p files).map (·.1)) files
    (initialNodes p files, [])
  refine Eq.trans ?_ hkeys
  apply List.map_congr_left
  intro e he
  have hchar := NodeChar_foldFiles p ((initialNodes p files).map (·.1)) files
    (initialNodes p files, []) (NodeChar_initial p files) e he
  exact hchar.1

/-- The final edge array is the concatenation of the per-file edge
contributions, matched against the phase-1 key list. -/
theorem buildGraph_edges (p : BuildParser) (files : List (JStr × JStr)) :
    (buildGraph p files).edges =
      files.flatMap (fileEdges p ((initialNodes p files).map (·.1))) := by
  unfold buildGraph
  rw [foldFiles_snd]
  · simp
  · intro f hf
    rw [initialNodes_mem_keys]
    exact List.mem_map_of_mem (·.1) hf

/-! ## Matcher soundness and order-independence -/

theorem pyMatch_sound {imp : JStr} {files : List JStr} {r : JStr}
    (h : pyMatchImportToFile imp files = some r) : r ∈ files := by
  unfold pyMatchImportToFile at h
  split at h
  · cases h; assumption
  · split at h
    · rename_i hw
      split at hw
      · split at hw
        · cases hw; cases h; assumption
        · cases hw
      · cases hw
    · split at h
      · cases h; assumption
      · exact firstIn_mem h

theorem jsMatch_sound {imp : JStr} {files : List JStr} {r : JStr}
    (h : jsMatchImportToFile imp files = some r) : r ∈ files := by
  induction imp, files using jsMatchImportToFile.induct with
  | case1 imp files hmem => rw [jsMatchImportToFile, if_pos hmem] at h; cases h; exact hmem
  | case2 imp files hmem v hv =>
    rw [jsMatchImportToFile, if_neg hmem, hv] at h
    cases h
    exact firstIn_mem hv
  | case3 imp files hmem hv h1 ih =>
    rw [jsMatchImportToFile, if_neg hmem, hv] at h
    rw [dif_pos h1] at h
    exact ih h
  | case4 imp files hmem hv h1 h2 =>
    rw [jsMatchImportToFile, if_neg hmem, hv, dif_neg h1, dif_pos h2] at h
    cases h
  | case5 imp files hmem hv h1 h2 ih =>
    rw [jsMatchImportToFile, if_neg hmem, hv, dif_neg h1, dif_neg h2] at h
    exact ih h

theorem pyMatch_perm {imp : JStr} {files files' : List JStr}
    (h : files.Perm files') :
    pyMatchImportToFile imp files = pyMatchImportToFile imp files' := by
  unfold pyMatchImportToFile
  rw [firstIn_perm h]
  simp only [h.mem_iff]

theorem jsMatch_perm {imp : JStr} {files files' : List JStr}
    (h : files.Perm files') :
    jsMatchImportToFile imp files = jsMatchImportToFile imp files' := by
  induction imp, files using jsMatchImportToFile.induct generalizing files' with
  | case1 imp files hmem =>
    conv_lhs => rw [jsMatchImportToFile]
    conv_rhs => rw [jsMatchImportToFile]
    rw [if_pos hmem, if_pos (h.mem_iff.1 hmem)]
  | case2 imp files hmem v hv =>
    have hmem' : imp ∉ files' := fun hm => hmem (h.mem_iff.2 hm)
    have hv' : firstIn (jsVariations (jsStripExt imp)) files' = some v := by
      rw [← firstIn_perm h]; exact hv
    conv_lhs => rw [jsMatchImportToFile]
    conv_rhs => rw [jsMatchImportToFile]
    rw [if_neg hmem, if_neg hmem', hv, hv']
  | case3 imp files hmem hv h1 ih =>
    have hmem' : imp ∉ files' := fun hm => hmem (h.mem_iff.2 hm)
    have hv' : firstIn (jsVariations (jsStripExt imp)) files' = none := by
      rw [← firstIn_perm h]; exact hv
    conv_lhs => rw [jsMatchImportToFile]
    conv_rhs => rw [jsMatchImportToFile]
    rw [if_neg hmem, if_neg hmem', hv, hv']
    simp only [dif_pos h1]
    exact ih h
  | case4 imp files hmem hv h1 h2 =>
    have hmem' : imp ∉ files' := fun hm => hmem (h.mem_iff.2 hm)
    have hv' : firstIn (jsVariations (jsStripExt imp)) files' = none := by
      rw [← firstIn_perm h]; exact hv
    conv_lhs => rw [jsMatchImportToFile]
    conv_rhs => rw [jsMatchImportToFile]
    rw [if_neg hmem, if_neg hmem', hv, hv']
    simp only [dif_neg h1, dif_pos h2]
  | case5 imp files hmem hv h1 h2 ih =>
    have hmem' : imp ∉ files' := fun hm => hmem (h.mem_iff.2 hm)
    have hv' : firstIn (jsVariations (jsStripExt imp)) files' = none := by
      rw [← firstIn_perm h]; exact hv
    conv_lhs => rw [jsMatchImportToFile]
    conv_rhs => rw [jsMatchImportToFile]
    rw [if_neg hmem, if_neg hmem', hv, hv']
    simp only [dif_neg h1, dif_neg h2]
    exact ih h

/-! ## Path-resolution lemmas -/

theorem split_three {a b c : JStr} (hsa : '/' ∉ a) (hsb : '/' ∉ b) (hsc : '/' ∉ c) :
    splitChar '/' (a ++ '/' :: (b ++ '/' :: c)) = [a, b, c] := by
  rw [splitChar_append hsa, splitChar_append hsb, splitChar_of_not_mem hsc]

theorem normalizeParts_no_ascent {ps : List JStr} (rel : List JStr)
    (hps : jstr ".." ∉ ps) : jstr ".." ∉ normalizeParts ps rel := by
  induction rel generalizing ps with
  | nil => exact hps
  | cons part rest ih =>
    unfold normalizeParts at ih ⊢
    rw [List.foldl_cons]
    by_cases h1 : part = jstr ".."
    · rw [if_pos h1]
      exact ih (fun hm => hps (List.dropLast_subset _ hm))
    · rw [if_neg h1]
      by_cases h2 : part = jstr "."
      · rw [if_pos h2]
        exact ih hps
      · rw [if_neg h2]
        refine ih ?_
        intro hm
        rcases List.mem_append.1 hm with hl | hr
        · exact hps hl
        · simp only [List.mem_singleton] at hr
          exact h1 hr.symm

theorem normalizeParts_pops (k : Nat) (dirs : List JStr) (hk : dirs.length ≤ k) :
    normalizeParts dirs (List.replicate k (jstr "..")) = [] := by
  induction k generalizing dirs with
  | zero =>
    rw [Nat.le_zero, List.length_eq_zero] at hk
    simp [hk, normalizeParts]
  | succ k ih =>
    rw [List.replicate_succ]
    unfold normalizeParts
    rw [List.foldl_cons, if_pos rfl]
    refine ih dirs.dropLast ?_
    rw [List.length_dropLast]
    omega

/-! ## Claim C1 -/

/-- The C1 scenario's fetched file set: `pkg/mod.py` containing
`from . import sibling` and `pkg/sibling.py` with no import statements. -/
def c1Files : List (JStr × JStr) :=
  [(jstr "pkg/mod.py", jstr "from . import sibling"),
   (jstr "pkg/sibling.py", jstr "x = 1")]

/-- C1 counterexample: in the scenario of the claim the edge
`pkg/mod.py → pkg/sibling.py` is NOT produced — `resolveRelativeImport`
maps `from . import sibling` to `pkg/__init__.py`, discarding the name
`sibling` being imported, and no file of that path exists. -/
theorem c1_counterexample :
    (jstr "pkg/mod.py", jstr "pkg/sibling.py") ∉
      (buildGraph pythonParser c1Files).edges := by decide

/-- C1 amended: the build of the scenario produces the two nodes and NO
edge at all: the Python parser resolves `from . import sibling` to the
candidates `/.py` (from the absolute-import regex capturing `.`) and
`pkg/__init__.py` (from the relative-import rule, which ignores the name
being imported), and neither candidate matches an available file. -/
theorem c1_amended :
    (buildGraph pythonParser c1Files).edges = []
    ∧ nodePaths (buildGraph pythonParser c1Files) =
        [jstr "pkg/mod.py", jstr "pkg/sibling.py"]
    ∧ pyParseImports (jstr "from . import sibling") (jstr "pkg/mod.py") =
        [jstr "/.py", jstr "pkg/__init__.py"]
    ∧ pyMatchImportToFile (jstr "pkg/__init__.py")
        [jstr "pkg/mod.py", jstr "pkg/sibling.py"] = none := by decide

/-! ## Claim C8 -/

/-- C8: the registry lookup `getLanguageConfig` is NOT case-insensitive
on identifiers — it compares `config.id === languageId` with the raw
argument and lowercases only for the alias test — so `"Python"` finds no
profile although `"python"` is a built-in identifier, while the
detector's map lookup (`LanguageDetector.getConfig`) lowercases its key
and does resolve `"Python"`. -/
theorem c8_lookup_case_divergence :
    getLanguageConfig (jstr "Python") = none
    ∧ getLanguageConfig (jstr "python") = some pythonConfig
    ∧ detectorGetConfig (jstr "Python") = some pythonConfig
    ∧ getLanguageConfig (jstr "TS") = some javascriptConfig := by decide

/-! ## Claim C10 -/

/-- C10 counterexample: a Python relative import that ascends four
levels from a file at directory depth three is NOT dropped — JS
`Array.slice` with a negative end index wraps around, so
`from .....x import y` in `a/b/c/f.py` resolves to `a/b/x.py`. -/
theorem c10_counterexample :
    pyResolveRelativeImport (jstr ".....x") (jstr "a/b/c/f.py") =
      some (jstr "a/b/x.py")
    ∧ pyResolveRelativeImport (jstr ".....x") (jstr "a/b/c/f.py") ≠ none := by decide

/-- C10 amended: the ECMAScript-family normalization clamps at the root —
`..` never survives into the result, and a relative path of `k ≥ depth`
`..` segments followed by a name resolves to just that name (e.g.
`../../x` from `a/b.ts` gives `x`) — while the Python variant drops an
over-ascending import only in some cases (ascending two levels from
depth one gives `none`) and not in others (ascending four levels from
depth three yields the in-root path `a/b/x.py`, because JS `slice`
interprets the negative end index from the end of the array). -/
theorem c10_amended :
    (∀ (ps : List JStr) (rel : List JStr), jstr ".." ∉ ps →
      jstr ".." ∉ normalizeParts ps rel)
    ∧ (∀ (dirs : List JStr) (k : Nat) (x : JStr), dirs.length ≤ k →
      x ≠ jstr ".." → x ≠ jstr "." →
      normalizeParts dirs (List.replicate k (jstr "..") ++ [x]) = [x])
    ∧ jsResolveImportPath (jstr "../../x") (jstr "a/b.ts") = jstr "x"
    ∧ pyResolveRelativeImport (jstr "...x") (jstr "a/f.py") = none
    ∧ pyResolveRelativeImport (jstr ".....x") (jstr "a/b/c/f.py") =
        some (jstr "a/b/x.py") := by
  refine ⟨fun ps rel hps => normalizeParts_no_ascent rel hps, ?_, by decide, by decide, by decide⟩
  intro dirs k x hk hx1 hx2
  unfold normalizeParts
  rw [List.foldl_append]
  have hpops := normalizeParts_pops k dirs hk
  unfold normalizeParts at hpops
  rw [hpops, List.foldl_cons, if_neg hx1, if_neg hx2]
  rfl

/-- C10 witness: the clamping facts of `c10_amended` instantiated at a
concrete directory stack and import. -/
theorem c10_amended_witness :
    jstr ".." ∉ normalizeParts [jstr "a"] [jstr "..", jstr "z"]
    ∧ normalizeParts [jstr "a"] (List.replicate 2 (jstr "..") ++ [jstr "x"]) = [jstr "x"] :=
  ⟨c10_amended.1 [jstr "a"] [jstr "..", jstr "z"] (by decide),
   c10_amended.2.1 [jstr "a"] 2 (jstr "x") (by decide) (by decide) (by decide)⟩

/-! ## Claims C2, C3 -/

theorem buildGraph_edge_source (p : BuildParser) (files : List (JStr × JStr))
    {ed : JStr × JStr} (hed : ed ∈ (buildGraph p files).edges) :
    ed.1 ∈ nodePaths (buildGraph p files) := by
  rw [buildGraph_edges] at hed
  rw [buildGraph_nodePaths]
  simp only [List.mem_flatMap] at hed
  obtain ⟨f, hf, hef⟩ := hed
  unfold fileEdges at hef
  split at hef
  · cases hef
  · simp only [List.mem_filterMap] at hef
    obtain ⟨imp, _, heq⟩ := hef
    obtain ⟨r, _, rfl⟩ := Option.map_eq_some'.1 heq
    rw [initialNodes_mem_keys]
    exact List.mem_map_of_mem (·.1) hf

theorem buildGraph_edge_target (p : BuildParser)
    (hsound : ∀ imp avail r, p.matchImportToFile imp avail = some r → r ∈ avail)
    (files : List (JStr × JStr)) {ed : JStr × JStr}
    (hed : ed ∈ (buildGraph p files).edges) :
    ed.2 ∈ nodePaths (buildGraph p files) := by
  rw [buildGraph_edges] at hed
  rw [buildGraph_nodePaths]
  simp only [List.mem_flatMap] at hed
  obtain ⟨f, hf, hef⟩ := hed
  unfold fileEdges at hef
  split at hef
  · cases hef
  · simp only [List.mem_filterMap] at hef
    obtain ⟨imp, _, heq⟩ := hef
    obtain ⟨r, hr, rfl⟩ := Option.map_eq_some'.1 heq
    exact hsound imp _ r hr

/-- C2: after every build — with the shipped ECMAScript-family matcher
under any import-extraction pass, and with the shipped Python parser —
every edge's source and target paths are paths of nodes present in the
node set; an import whose candidate matches no known path contributes no
edge (`stepImport` leaves the state unchanged on a failed match) and the
build is total, so no error is raised. -/
theorem c2_no_dangling_edges (files : List (JStr × JStr))
    (pi : JStr → JStr → List JStr) (e : JStr × JStr) :
    (e ∈ (buildGraph (jsParserWith pi) files).edges →
      e.1 ∈ nodePaths (buildGraph (jsParserWith pi) files) ∧
      e.2 ∈ nodePaths (buildGraph (jsParserWith pi) files))
    ∧ (e ∈ (buildGraph pythonParser files).edges →
      e.1 ∈ nodePaths (buildGraph pythonParser files) ∧
      e.2 ∈ nodePaths (buildGraph pythonParser files))
    ∧ (∀ (avail : List JStr) (src : JStr) (st : NodeMap × List (JStr × JStr))
        (imp : JStr), pyMatchImportToFile imp avail = none →
        stepImport pythonParser avail src st imp = st) := by
  refine ⟨fun he => ⟨buildGraph_edge_source _ files he, ?_⟩,
    fun he => ⟨buildGraph_edge_source _ files he, ?_⟩, ?_⟩
  · exact buildGraph_edge_target _ (fun imp avail r h => jsMatch_sound h) files he
  · exact buildGraph_edge_target _ (fun imp avail r h => pyMatch_sound h) files he
  · intro avail src st imp hnone
    unfold stepImport
    rw [show pythonParser.matchImportToFile = pyMatchImportToFile from rfl, hnone]

/-- The two-file Python scenario used to witness the graph invariants:
`a.py` imports `b`, `b.py` has no imports. -/
def c2Files : List (JStr × JStr) :=
  [(jstr "a.py", jstr "import b"), (jstr "b.py", jstr "x = 1")]

/-- C2 witness: in the concrete two-file Python build the edge
`a.py → b.py` exists and both endpoints are node paths. -/
theorem c2_no_dangling_edges_witness :
    jstr "a.py" ∈ nodePaths (buildGraph pythonParser c2Files)
    ∧ jstr "b.py" ∈ nodePaths (buildGraph pythonParser c2Files) :=
  (c2_no_dangling_edges c2Files pyParseImports (jstr "a.py", jstr "b.py")).2.1 (by decide)

/-- C3: after every build with any parser, a node `t` counts `s` among
its `importedBy` exactly when some node with path `s` counts `t.path`
among its `imports` — every materialized edge is mirrored in both
endpoints' edge sets. -/
theorem c3_bidirectional_consistency (p : BuildParser) (files : List (JStr × JStr))
    (t : FileNode) (s : JStr) (ht : t ∈ (buildGraph p files).nodes) :
    s ∈ t.importedBy ↔
      ∃ ns ∈ (buildGraph p files).nodes, ns.path = s ∧ t.path ∈ ns.imports := by
  obtain ⟨_, himt, hbyt⟩ := buildGraph_char p files t ht
  constructor
  · intro hs
    rw [hbyt] at hs
    simp only [List.mem_map, List.mem_filter, beq_iff_eq] at hs
    obtain ⟨ed, ⟨hed, hed2⟩, hed1⟩ := hs
    have hsrc : ed.1 ∈ nodePaths (buildGraph p files) :=
      buildGraph_edge_source p files hed
    unfold nodePaths at hsrc
    simp only [List.mem_map] at hsrc
    obtain ⟨ns, hns, hnsp⟩ := hsrc
    refine ⟨ns, hns, hed1 ▸ hnsp, ?_⟩
    obtain ⟨_, hims, _⟩ := buildGraph_char p files ns hns
    rw [hims]
    simp only [List.mem_map, List.mem_filter, beq_iff_eq]
    exact ⟨ed, ⟨hed, hnsp.symm⟩, hed2⟩
  · rintro ⟨ns, hns, hnsp, hts⟩
    obtain ⟨_, hims, _⟩ := buildGraph_char p files ns hns
    rw [hims] at hts
    simp only [List.mem_map, List.mem_filter, beq_iff_eq] at hts
    obtain ⟨ed, ⟨hed, hed1⟩, hed2⟩ := hts
    rw [hbyt]
    simp only [List.mem_map, List.mem_filter, beq_iff_eq]
    exact ⟨ed, ⟨hed, hed2⟩, hnsp ▸ hed1⟩

/-- C3 witness: in the two-file Python build, `b.py`'s node lists
`a.py` in `importedBy`, mirrored by `a.py`'s node listing `b.py` in
`imports`. -/
theorem c3_bidirectional_consistency_witness :
    jstr "a.py" ∈ (FileNode.mk (jstr "b.py") (jstr "other") [] [jstr "a.py"]).importedBy :=
  (c3_bidirectional_consistency pythonParser c2Files
      ⟨jstr "b.py", jstr "other", [], [jstr "a.py"]⟩ (jstr "a.py") (by decide)).mpr
    ⟨⟨jstr "a.py", jstr "other", [jstr "b.py"], []⟩, by decide, rfl, by decide⟩

/-! ## Claim C4 -/

/-- C4 counterexample: with byte statistics available whose dominant
name `Haskell` matches no registry identifier, alias, or manual mapping,
detection returns `haskell` itself with method `github-api` — it does
not fall through to manifest detection even though a `package.json`
manifest is present in the tree. -/
theorem c4_counterexample :
    (detectLanguagePure (some [(jstr "Haskell", 100)])
        (some [⟨jstr "package.json", jstr "blob"⟩])).language = jstr "haskell"
    ∧ (detectLanguagePure (some [(jstr "Haskell", 100)])
        (some [⟨jstr "package.json", jstr "blob"⟩])).method = jstr "github-api"
    ∧ configsGet (jstr "haskell") = none
    ∧ mapGitHubLanguageToId (jstr "Haskell") = jstr "haskell" := by decide

/-- C4 amended: when byte statistics are available (nonzero total) and
the dominant host name is recognized by neither the registry map nor the
manual mapping table, detection returns that name lowercased, with
method `github-api` and confidence equal to its byte share — the
manifest method is never consulted. -/
theorem c4_amended (langs : List (JStr × Nat)) (tree? : Option (List TreeItem))
    (n : JStr) (b : Nat)
    (hsum : (langs.map (·.2)).sum ≠ 0)
    (hhead : (sortDescByVal langs).head? = some (n, b))
    (hreg : configsGet (jsToLower n) = none)
    (hmap : manualMappings.find? (fun e => e.1 == jsToLower n) = none) :
    detectLanguagePure (some langs) tree? =
      { language := jsToLower n,
        confidence := (b : ℚ) / (((langs.map (·.2)).sum : Nat) : ℚ),
        method := jstr "github-api",
        metadata := some { languageStats := some langs } } := by
  have hapi : detectFromGitHubAPIStats langs = some
      { language := jsToLower n,
        confidence := (b : ℚ) / (((langs.map (·.2)).sum : Nat) : ℚ),
        method := jstr "github-api",
        metadata := some { languageStats := some langs } } := by
    unfold detectFromGitHubAPIStats
    rw [if_neg hsum]
    cases hs : sortDescByVal langs with
    | nil => rw [hs] at hhead; cases hhead
    | cons pr rest =>
      rw [hs] at hhead
      simp only [List.head?_cons, Option.some.injEq] at hhead
      subst hhead
      have hid : mapGitHubLanguageToId n = jsToLower n := by
        unfold mapGitHubLanguageToId
        rw [hreg, hmap]
        rfl
      simp [hid]
  simp [detectLanguagePure, hapi]

/-- C4 witness: the amended behaviour at the concrete single-entry
statistics table `Haskell ↦ 100`. -/
theorem c4_amended_witness :
    detectLanguagePure (some [(jstr "Haskell", 100)]) none =
      { language := jsToLower (jstr "Haskell"),
        confidence := ((100 : Nat) : ℚ) / ((([(jstr "Haskell", 100)].map
          (·.2)).sum : Nat) : ℚ),
        method := jstr "github-api",
        metadata := some { languageStats := some [(jstr "Haskell", 100)] } } :=
  c4_amended [(jstr "Haskell", 100)] none (jstr "Haskell") 100
    (by decide) (by decide) (by decide) (by decide)

/-! ## Claim C7 -/

/-- C7 counterexample: the default terminal case of `detectLanguage`
carries the method tag `"manual"` — exactly the tag the route uses for a
user-supplied manual override — and a tree whose only entry is `go.mod`
(whose extension `.mod` maps to no profile) does not reach the default
at all: the manifest step answers first. -/
theorem c7_counterexample :
    (detectLanguagePure none none).method = jstr "manual"
    ∧ (manualDetection (jstr "go")).method = jstr "manual"
    ∧ detectFromExtensions [⟨jstr "go.mod", jstr "blob"⟩] = none
    ∧ (detectLanguagePure none (some [⟨jstr "go.mod", jstr "blob"⟩])).language =
        jstr "go" := by decide

theorem bumpCount_mem_keys (l : List (JStr × Nat)) (k : JStr) (n : Nat) (x : JStr) :
    x ∈ (bumpCount l k n).map (·.1) ↔ x ∈ l.map (·.1) ∨ x = k := by
  unfold bumpCount
  split
  · rename_i hmem
    have hkeys : (l.map (fun e => if e.1 = k then (e.1, e.2 + n) else e)).map (·.1) =
        l.map (·.1) := by
      rw [List.map_map]
      apply List.map_congr_left
      intro e _
      by_cases h : e.1 = k <;> simp [h]
    rw [hkeys]
    constructor
    · exact Or.inl
    · rintro (hx | rfl)
      · exact hx
      · simp only [List.any_eq_true, beq_iff_eq] at hmem
        obtain ⟨e, he, hek⟩ := hmem
        exact hek ▸ List.mem_map_of_mem (·.1) he
  · simp [or_comm]

theorem extensionCounts_keys (tree : List TreeItem) :
    ∀ k ∈ (extensionCounts tree).map (·.1),
      ∃ item ∈ tree, getExtension item.path = some k := by
  suffices hgen : ∀ acc : List (JStr × Nat),
      ∀ k ∈ (tree.foldl (fun acc item =>
        if item.type == jstr "blob" then
          match getExtension item.path with
          | some ext => bumpCount acc ext 1
          | none => acc
        else acc) acc).map (·.1),
      k ∈ acc.map (·.1) ∨ ∃ item ∈ tree, getExtension item.path = some k by
    intro k hk
    rcases hgen [] k hk with h | h
    · simp at h
    · exact h
  induction tree with
  | nil => intro acc k hk; exact Or.inl hk
  | cons item rest ih =>
    intro acc k hk
    rw [List.foldl_cons] at hk
    rcases ih _ k hk with h | h
    · split at h
      · rename_i hblob
        cases hext : getExtension item.path with
        | none => rw [hext] at h; exact Or.inl h
        | some ext =>
          rw [hext] at h
          rcases (bumpCount_mem_keys acc ext 1 k).1 h with h2 | rfl
          · exact Or.inl h2
          · exact Or.inr ⟨item, List.mem_cons_self item rest, hext⟩
      · exact Or.inl h
    · obtain ⟨it, hit, hext⟩ := h
      exact Or.inr ⟨it, List.mem_cons_of_mem item hit, hext⟩

theorem languageCounts_nil (tree : List TreeItem)
    (h : ∀ item ∈ tree, ∀ ext, getExtension item.path = some ext →
      findLanguageByExtension ext = none) :
    languageCounts tree = [] := by
  have hall : ∀ kv ∈ extensionCounts tree, findLanguageByExtension kv.1 = none := by
    intro kv hkv
    obtain ⟨item, hit, hext⟩ := extensionCounts_keys tree kv.1
      (List.mem_map_of_mem (·.1) hkv)
    exact h item hit kv.1 hext
  unfold languageCounts
  suffices hgen : ∀ ec : List (JStr × Nat),
      (∀ kv ∈ ec, findLanguageByExtension kv.1 = none) →
      (ec.foldl (fun acc e =>
        match findLanguageByExtension e.1 with
        | some languageId => bumpCount acc languageId e.2
        | none => acc) []) = [] by
    exact hgen _ hall
  intro ec
  induction ec with
  | nil => intro _; rfl
  | cons e es ih =>
    intro h
    rw [List.foldl_cons, h e (List.mem_cons_self e es)]
    exact ih (fun kv hkv => h kv (List.mem_cons_of_mem e hkv))

/-- C7 amended: when the statistics method yields nothing and either no
tree was supplied, or the supplied tree matches no manifest and none of
its file extensions maps to a profile, detection returns the default
`javascript` with confidence exactly 3/10 — but its method tag is
`"manual"`, the same tag the route attaches to a user-supplied
override. -/
theorem c7_amended (tree? : Option (List TreeItem))
    (hcase : tree? = none ∨ ∃ t, tree? = some t ∧ detectFromManifests t = none ∧
      (∀ item ∈ t, ∀ ext, getExtension item.path = some ext →
        findLanguageByExtension ext = none)) :
    detectLanguagePure none tree? =
      { language := jstr "javascript", confidence := 3/10, method := jstr "manual" } := by
  rcases hcase with rfl | ⟨t, rfl, hman, hext⟩
  · rfl
  · have hde : detectFromExtensions t = none := by
      unfold detectFromExtensions
      rw [languageCounts_nil t hext]
      rfl
    simp [detectLanguagePure, hman, hde]

/-- C7 witness: the amended default at the empty input (no tree
supplied). -/
theorem c7_amended_witness :
    detectLanguagePure none none =
      { language := jstr "javascript", confidence := 3/10, method := jstr "manual" } :=
  c7_amended none (Or.inl rfl)

/-! ## Claim C6 -/

theorem detectedManifests_first (tree : List TreeItem) :
    ∀ (l : List LanguageConfig) (cfg : LanguageConfig),
      l.find? (fun c => c.manifestFiles.any
        (fun mf => decide (jsToLower mf ∈ manifestFilePaths tree))) = some cfg →
      ∃ mf rest,
        l.flatMap (fun config => config.manifestFiles.filterMap (fun manifestFile =>
          if jsToLower manifestFile ∈ manifestFilePaths tree then
            some (config.id, manifestFile)
          else none)) = (cfg.id, mf) :: rest := by
  intro l
  induction l with
  | nil => intro cfg h; cases h
  | cons c cs ih =>
    intro cfg h
    by_cases hp : (c.manifestFiles.any
        (fun mf => decide (jsToLower mf ∈ manifestFilePaths tree))) = true
    · rw [List.find?_cons_of_pos (a := c) cs hp] at h
      cases h
      simp only [List.any_eq_true, decide_eq_true_eq] at hp
      obtain ⟨mf0, hmf0, hmem0⟩ := hp
      cases hcl : c.manifestFiles.filterMap (fun manifestFile =>
          if jsToLower manifestFile ∈ manifestFilePaths tree then
            some (c.id, manifestFile)
          else none) with
      | nil =>
        rw [List.filterMap_eq_nil] at hcl
        have := hcl mf0 hmf0
        rw [if_pos hmem0] at this
        cases this
      | cons hd tl =>
        have hhd : hd ∈ c.manifestFiles.filterMap (fun manifestFile =>
            if jsToLower manifestFile ∈ manifestFilePaths tree then
              some (c.id, manifestFile)
            else none) := by
          rw [hcl]; exact List.mem_cons_self hd tl
        simp only [List.mem_filterMap] at hhd
        obtain ⟨mf1, _, hmf1⟩ := hhd
        split at hmf1
        · cases hmf1
          exact ⟨mf1, tl ++ cs.flatMap _, by rw [List.flatMap_cons, hcl]; rfl⟩
        · cases hmf1
    · rw [List.find?_cons_of_neg (a := c) cs hp] at h
      have hcl : c.manifestFiles.filterMap (fun manifestFile =>
          if jsToLower manifestFile ∈ manifestFilePaths tree then
            some (c.id, manifestFile)
          else none) = [] := by
        rw [List.filterMap_eq_nil]
        intro mf hmf
        simp only [List.any_eq_true, decide_eq_true_eq, not_exists, not_and] at hp
        rw [if_neg (by simpa using hp mf hmf)]
      rw [List.flatMap_cons, hcl, List.nil_append]
      exact ih cfg h

/-- C6: with provider statistics unavailable, whenever some registry
profile has a manifest filename occurring (case-insensitively) in the
blob path list, detection answers with the FIRST such profile in
registry priority order, method `manifest`, and confidence exactly 4/5,
regardless of how many manifests matched. -/
theorem c6_manifest_priority (tree : List TreeItem) (cfg : LanguageConfig)
    (hfind : LANGUAGE_CONFIGS.find? (fun c => c.manifestFiles.any
      (fun mf => decide (jsToLower mf ∈ manifestFilePaths tree))) = some cfg) :
    (detectLanguagePure none (some tree)).language = cfg.id
    ∧ (detectLanguagePure none (some tree)).confidence = 4/5
    ∧ (detectLanguagePure none (some tree)).method = jstr "manifest" := by
  obtain ⟨mf, rest, hd⟩ := detectedManifests_first tree LANGUAGE_CONFIGS cfg hfind
  have hd2 : detectedManifests tree = (cfg.id, mf) :: rest := hd
  have hdm : detectFromManifests tree = some
      { language := cfg.id, confidence := 4/5, method := jstr "manifest",
        metadata := some { manifestFiles := some (((cfg.id, mf) :: rest).map (fun x => x.2)) } } := by
    unfold detectFromManifests
    rw [hd2]
  simp [detectLanguagePure, hdm]

/-- C6 witness: a tree containing exactly `go.mod` detects language
`go` by manifest with confidence 4/5 (the scenario of the claim). -/
theorem c6_manifest_priority_witness :
    (detectLanguagePure none (some [⟨jstr "go.mod", jstr "blob"⟩])).language = jstr "go"
    ∧ (detectLanguagePure none (some [⟨jstr "go.mod", jstr "blob"⟩])).confidence = 4/5
    ∧ (detectLanguagePure none (some [⟨jstr "go.mod", jstr "blob"⟩])).method =
        jstr "manifest" :=
  c6_manifest_priority [⟨jstr "go.mod", jstr "blob"⟩] goConfig (by decide)

/-! ## Claim C9 -/

/-- C9: from any current file `a/b/c` (segments free of `/`, directory
segments nonempty), the ECMAScript-family parser resolves the relative
specifier `../d` to `a/d`, and the Python parser resolves the matching
relative form `..d` to `a/d.py` — one level up, sibling `d`, up to each
variant's suffix rule. -/
theorem c9_parent_sibling_resolution (a b c : JStr)
    (ha : a ≠ []) (hb : b ≠ []) (hsa : '/' ∉ a) (hsb : '/' ∉ b) (hsc : '/' ∉ c) :
    jsResolveImportPath (jstr "../d") (a ++ '/' :: (b ++ '/' :: c)) = a ++ jstr "/d"
    ∧ pyResolveRelativeImport (jstr "..d") (a ++ '/' :: (b ++ '/' :: c)) =
        some (a ++ jstr "/d.py") := by
  have hfa : a.isEmpty = false := by cases a with
    | nil => exact absurd rfl ha
    | cons x xs => rfl
  have hfb : b.isEmpty = false := by cases b with
    | nil => exact absurd rfl hb
    | cons x xs => rfl
  have hsplit : splitChar '/' (a ++ '/' :: (b ++ '/' :: c)) = [a, b, c] :=
    split_three hsa hsb hsc
  have hsplit2 : splitChar '/' (a ++ '/' :: b) = [a, b] := by
    rw [splitChar_append hsa, splitChar_of_not_mem hsb]
  constructor
  · unfold jsResolveImportPath
    rw [if_neg (by decide), if_neg (by decide), if_pos (by decide)]
    rw [hsplit]
    show jsNormalizePath (joinChar '/' [a, b]) (jstr "../d") = a ++ jstr "/d"
    have hj : joinChar '/' [a, b] = a ++ '/' :: b := rfl
    rw [hj]
    unfold jsNormalizePath
    rw [hsplit2]
    have hrel : splitChar '/' (jstr "../d") = [jstr "..", jstr "d"] := by decide
    rw [hrel]
    have hfilter : ([a, b].filter (fun p => !p.isEmpty)) = [a, b] := by
      simp [List.filter_cons, hfa, hfb]
    rw [hfilter]
    have hnorm : normalizeParts [a, b] [jstr "..", jstr "d"] = [a, jstr "d"] := by
      unfold normalizeParts
      rw [List.foldl_cons, if_pos rfl, List.foldl_cons,
        if_neg (by decide), if_neg (by decide)]
      rfl
    rw [hnorm]
    show a ++ '/' :: jstr "d" = a ++ jstr "/d"
    rfl
  · unfold pyResolveRelativeImport
    rw [if_neg (by decide), hsplit]
    have hcore : pyRelCore 2 (jstr "d") [a, b] =
        some (a ++ jstr "/" ++ jstr "d" ++ jstr ".py") := rfl
    refine Eq.trans (Eq.trans ?_ hcore) ?_
    · rfl
    · rw [List.append_assoc, List.append_assoc]
      rfl

/-! ## Claim C5 -/

theorem mapSet_keys_nodup (m : NodeMap) (k : JStr) (v : FileNode)
    (h : (m.map (·.1)).Nodup) : ((mapSet m k v).map (·.1)).Nodup := by
  unfold mapSet
  split
  · rw [map_fst_replace]; exact h
  · rename_i hmem
    rw [List.map_append]
    refine List.Nodup.append h (List.nodup_singleton _) ?_
    intro x hx hxk
    simp only [List.map_cons, List.map_nil, List.mem_singleton] at hxk
    exact hmem (hxk ▸ hx)

theorem initialNodes_keys_nodup (p : BuildParser) (files : List (JStr × JStr)) :
    ((initialNodes p files).map (·.1)).Nodup := by
  suffices hgen : ∀ m : NodeMap, (m.map (·.1)).Nodup →
      ((files.foldl (fun m f =>
        mapSet m f.1 ⟨f.1, p.getFileType f.1, [], []⟩) m).map (·.1)).Nodup by
    exact hgen [] (by simp)
  induction files with
  | nil => exact fun m hm => hm
  | cons f fs ih =>
    intro m hm
    rw [List.foldl_cons]
    exact ih _ (mapSet_keys_nodup _ _ _ hm)

theorem fileEdges_src (p : BuildParser) (avail : List JStr) (f : JStr × JStr) :
    ∀ ed ∈ fileEdges p avail f, ed.1 = f.1 := by
  intro ed hed
  unfold fileEdges at hed
  split at hed
  · cases hed
  · simp only [List.mem_filterMap] at hed
    obtain ⟨imp, _, heq⟩ := hed
    obtain ⟨r, _, rfl⟩ := Option.map_eq_some'.1 heq
    rfl

theorem flatMap_fileEdges_filter (p : BuildParser) (avail : List JStr)
    (files : List (JStr × JStr)) (k : JStr) :
    (files.flatMap (fileEdges p avail)).filter (fun ed => ed.1 == k) =
      (files.filter (fun f => f.1 == k)).flatMap (fileEdges p avail) := by
  induction files with
  | nil => rfl
  | cons f fs ih =>
    rw [List.flatMap_cons, List.filter_append, ih, List.filter_cons]
    by_cases hk : (f.1 == k) = true
    · have hl : (fileEdges p avail f).filter (fun ed => ed.1 == k) = fileEdges p avail f :=
        List.filter_eq_self.2 (fun ed hed => by rw [fileEdges_src p avail f ed hed]; exact hk)
      rw [hl, if_pos hk, List.flatMap_cons]
    · have hl : (fileEdges p avail f).filter (fun ed => ed.1 == k) = [] :=
        List.filter_eq_nil_iff.2 (fun ed hed => by rw [fileEdges_src p avail f ed hed]; exact hk)
      rw [hl, if_neg hk, List.nil_append]

theorem filter_key_replicate (content : JStr → JStr) (k : JStr)
    (files : List (JStr × JStr)) (hc : ∀ f ∈ files, f.2 = content f.1) :
    files.filter (fun f => f.1 == k) =
      List.replicate ((files.filter (fun f => f.1 == k)).length) (k, content k) := by
  rw [List.eq_replicate_iff]
  refine ⟨rfl, ?_⟩
  intro b hb
  have hbm := List.mem_of_mem_filter hb
  have hbk : (b.1 == k) = true := (List.mem_filter.1 hb).2
  rw [beq_iff_eq] at hbk
  have hbc := hc b hbm
  cases b with
  | mk b1 b2 =>
    simp only at hbk hbc
    rw [hbk] at hbc ⊢
    rw [hbc]

theorem buildGraph_char_proj (p : BuildParser) (files : List (JStr × JStr)) :
    (buildGraph p files).nodes.map (fun n => (n.path, n.type, n.imports)) =
      (nodePaths (buildGraph p files)).map (fun k => (k, p.getFileType k,
        (((buildGraph p files).edges).filter (fun ed => ed.1 == k)).map (·.2))) := by
  unfold nodePaths
  rw [List.map_map]
  apply List.map_congr_left
  intro n hn
  obtain ⟨ht, him, _⟩ := buildGraph_char p files n hn
  simp only [Function.comp_apply]
  rw [ht, him]

/-- Permutation invariance of the graph build at the level of fetched
file lists: for file lists that are permutations of each other and whose
contents are a function of the path alone, the edge multiset, the
node-projection multiset (path, type, imports), and each node's
`importedBy` multiset agree. -/
theorem buildGraph_perm (p : BuildParser) (content : JStr → JStr)
    (files1 files2 : List (JStr × JStr))
    (hmatch : ∀ (imp : JStr) (files files' : List JStr), files.Perm files' →
      p.matchImportToFile imp files = p.matchImportToFile imp files')
    (hc1 : ∀ f ∈ files1, f.2 = content f.1)
    (hperm : files1.Perm files2) :
    (buildGraph p files1).edges.Perm (buildGraph p files2).edges
    ∧ ((buildGraph p files1).nodes.map (fun n => (n.path, n.type, n.imports))).Perm
        ((buildGraph p files2).nodes.map (fun n => (n.path, n.type, n.imports)))
    ∧ (∀ n1 ∈ (buildGraph p files1).nodes, ∀ n2 ∈ (buildGraph p files2).nodes,
        n1.path = n2.path → n1.importedBy.Perm n2.importedBy) := by
  have hc2 : ∀ f ∈ files2, f.2 = content f.1 := fun f hf => hc1 f (hperm.mem_iff.mpr hf)
  have havail : ((initialNodes p files1).map (·.1)).Perm
      ((initialNodes p files2).map (·.1)) := by
    rw [List.perm_ext_iff_of_nodup (initialNodes_keys_nodup p files1)
      (initialNodes_keys_nodup p files2)]
    intro k
    rw [initialNodes_mem_keys, initialNodes_mem_keys]
    exact (hperm.map (·.1)).mem_iff
  have hfeq : fileEdges p ((initialNodes p files1).map (·.1)) =
      fileEdges p ((initialNodes p files2).map (·.1)) := by
    funext f
    unfold fileEdges
    split
    · rfl
    · exact List.filterMap_congr (fun imp _ => by rw [hmatch imp _ _ havail])
  have hedges1 := buildGraph_edges p files1
  have hedges2 := buildGraph_edges p files2
  have hedgesPerm : (buildGraph p files1).edges.Perm (buildGraph p files2).edges := by
    rw [hedges1, hedges2, hfeq]
    exact List.Perm.flatMap_right _ hperm
  have hsrcfilter : ∀ k : JStr,
      ((buildGraph p files1).edges.filter (fun ed => ed.1 == k)) =
      ((buildGraph p files2).edges.filter (fun ed => ed.1 == k)) := by
    intro k
    rw [hedges1, hedges2, hfeq, flatMap_fileEdges_filter, flatMap_fileEdges_filter,
      filter_key_replicate content k files1 hc1, filter_key_replicate content k files2 hc2,
      (hperm.filter (fun f => f.1 == k)).length_eq]
  refine ⟨hedgesPerm, ?_, ?_⟩
  · rw [buildGraph_char_proj, buildGraph_char_proj]
    have hF : (fun k => (k, p.getFileType k,
        (((buildGraph p files1).edges).filter (fun ed => ed.1 == k)).map (·.2))) =
        (fun k => (k, p.getFileType k,
        (((buildGraph p files2).edges).filter (fun ed => ed.1 == k)).map (·.2))) :=
      funext (fun k => by rw [hsrcfilter k])
    rw [hF, buildGraph_nodePaths, buildGraph_nodePaths]
    exact havail.map _
  · intro n1 h1 n2 h2 hpath
    rw [(buildGraph_char p files1 n1 h1).2.2, (buildGraph_char p files2 n2 h2).2.2, hpath]
    exact (hedgesPerm.filter _).map _

theorem fromTree_files_content (p : BuildParser) (tree : List TreeItem)
    (content : JStr → JStr) :
    ∀ f ∈ (codeFiles p tree).map (fun item => (item.path, content item.path)),
      f.2 = content f.1 := by
  intro f hf
  simp only [List.mem_map] at hf
  obtain ⟨it, _, rfl⟩ := hf
  rfl

/-- C5 amended: order-independence of the build holds only below the
200-file analysis cap — when the filtered file list has at most 200
entries, two tree listings that are permutations of each other (same
contents per path) yield the same edge set, the same node set (path,
classification, and import list per node), and per-node `importedBy`
sets equal up to order; the `.slice(0, 200)` truncation breaks this for
larger trees. -/
theorem c5_amended (p : BuildParser) (content : JStr → JStr) (t1 t2 : List TreeItem)
    (hmatch : ∀ (imp : JStr) (files files' : List JStr), files.Perm files' →
      p.matchImportToFile imp files = p.matchImportToFile imp files')
    (hperm : t1.Perm t2)
    (hcap : (codeFilesAll p t1).length ≤ 200) :
    (buildFromTree p t1 content).edges.Perm (buildFromTree p t2 content).edges
    ∧ ((buildFromTree p t1 content).nodes.map (fun n => (n.path, n.type, n.imports))).Perm
        ((buildFromTree p t2 content).nodes.map (fun n => (n.path, n.type, n.imports)))
    ∧ (∀ n1 ∈ (buildFromTree p t1 content).nodes, ∀ n2 ∈ (buildFromTree p t2 content).nodes,
        n1.path = n2.path → n1.importedBy.Perm n2.importedBy) := by
  have hall_perm : (codeFilesAll p t1).Perm (codeFilesAll p t2) := hperm.filter _
  have ht1 : codeFiles p t1 = codeFilesAll p t1 := List.take_of_length_le hcap
  have ht2 : codeFiles p t2 = codeFilesAll p t2 :=
    List.take_of_length_le (hall_perm.length_eq ▸ hcap)
  have hfilesperm : ((codeFiles p t1).map (fun item => (item.path, content item.path))).Perm
      ((codeFiles p t2).map (fun item => (item.path, content item.path))) := by
    rw [ht1, ht2]
    exact hall_perm.map _
  exact buildGraph_perm p content _ _ hmatch (fromTree_files_content p t1 content) hfilesperm

/-- A tree of 201 distinct Python blobs, one more than the analysis
cap. -/
def c5TreeA : List TreeItem :=
  (List.range 201).map (fun i => ⟨jstr ("f" ++ toString i ++ ".py"), jstr "blob"⟩)

/-- The same 201 files in reverse order. -/
def c5TreeB : List TreeItem := c5TreeA.reverse

set_option maxRecDepth 10000 in
set_option maxHeartbeats 1000000 in
/-- C5 counterexample: two tree listings that differ only in array order
(the second is the reverse of the first, with identical — empty —
content per path) produce different node sets: `f0.py` survives the
200-file truncation in one order but not in the other. -/
theorem c5_counterexample :
    c5TreeB.Perm c5TreeA
    ∧ jstr "f0.py" ∈ nodePaths (buildFromTree pythonParser c5TreeA (fun _ => []))
    ∧ jstr "f0.py" ∉ nodePaths (buildFromTree pythonParser c5TreeB (fun _ => [])) := by
  refine ⟨List.reverse_perm c5TreeA, ?_, ?_⟩
  · unfold buildFromTree
    rw [buildGraph_nodePaths, initialNodes_mem_keys]
    decide
  · unfold buildFromTree
    rw [buildGraph_nodePaths, initialNodes_mem_keys]
    decide

/-- The tree of the permutation witness: `a.py` and `b.py`. -/
def c5wTreeA : List TreeItem :=
  [⟨jstr "a.py", jstr "blob"⟩, ⟨jstr "b.py", jstr "blob"⟩]

/-- The same two files, swapped. -/
def c5wTreeB : List TreeItem :=
  [⟨jstr "b.py", jstr "blob"⟩, ⟨jstr "a.py", jstr "blob"⟩]

/-- The contents of the permutation witness: `a.py` imports `b`. -/
def c5wContent (path : JStr) : JStr :=
  if path = jstr "a.py" then jstr "import b" else jstr "x = 1"

/-- C5 witness: for the two-file Python tree and its swap (both below
the cap) the edge multisets of the two builds are permutations of each
other. -/
theorem c5_amended_witness :
    (buildFromTree pythonParser c5wTreeA c5wContent).edges.Perm
      (buildFromTree pythonParser c5wTreeB c5wContent).edges :=
  (c5_amended pythonParser c5wContent c5wTreeA c5wTreeB
    (fun imp files files' h => pyMatch_perm h) (by decide) (by decide)).1

/-- C9 witness: the resolution facts at the concrete current file
`src/sub/m.py`. -/
theorem c9_parent_sibling_resolution_witness :
    jsResolveImportPath (jstr "../d")
      (jstr "src" ++ '/' :: (jstr "sub" ++ '/' :: jstr "m.py")) = jstr "src" ++ jstr "/d"
    ∧ pyResolveRelativeImport (jstr "..d")
      (jstr "src" ++ '/' :: (jstr "sub" ++ '/' :: jstr "m.py")) =
        some (jstr "src" ++ jstr "/d.py") :=
  c9_parent_sibling_resolution (jstr "src") (jstr "sub") (jstr "m.py")
    (by decide) (by decide) (by decide) (by decide) (by decide)
